import Mathlib

/-! Q15 AXPY: scalar reference kernel and RVV kernel.

A shallow embedding of `src/q15_axpy_scalar.c` and `src/q15_axpy_rvv.c`.

* Machine integers are mathematical integers; every place where the C code
  computes in a fixed width is wrapped explicitly (`wrap32`, `wrap16`,
  `size_sub`).
* Memory is a map from element addresses to `int16_t` values.  A pointer
  `const int16_t *a` is the address of its first element, `a[i]` is the cell
  `a + i`.  Aliasing between buffers is therefore expressible.
* The RVV intrinsics are modelled lane by lane after the RISC-V vector
  specification.  The lane count returned by `vsetvl` and the fixed-point
  rounding mode `vxrm` are properties of the hart, so they are parameters.
-/

namespace Q15Axpy

/-! ## Machine integers -/

/-- The constant `INT16_MAX` of `<stdint.h>`. -/
def INT16_MAX : Int := 32767

/-- The constant `INT16_MIN` of `<stdint.h>`. -/
def INT16_MIN : Int := -32768

/-- The constant `INT32_MAX` of `<stdint.h>`. -/
def INT32_MAX : Int := 2147483647

/-- The constant `INT32_MIN` of `<stdint.h>`. -/
def INT32_MIN : Int := -2147483648

/-- Number of values of a `size_t` (64-bit target). -/
def SIZE_MOD : Nat := 18446744073709551616

/-- Two's complement reduction of an integer to `int32_t`. -/
def wrap32 (x : Int) : Int := (x + 2147483648) % 4294967296 - 2147483648

/-- Two's complement reduction of an integer to `int16_t` (the cast `(int16_t)val`). -/
def wrap16 (x : Int) : Int := (x + 32768) % 65536 - 32768

/-- Subtraction of two `size_t` values, wrapping modulo `SIZE_MOD`. -/
def size_sub (x y : Nat) : Nat := (x + (SIZE_MOD - y % SIZE_MOD)) % SIZE_MOD

/-- The value fits an `int16_t`. -/
def isInt16 (x : Int) : Prop := INT16_MIN ≤ x ∧ x ≤ INT16_MAX

instance (x : Int) : Decidable (isInt16 x) :=
  inferInstanceAs (Decidable (INT16_MIN ≤ x ∧ x ≤ INT16_MAX))

/-- The value fits an `int32_t`. -/
def isInt32 (x : Int) : Prop := INT32_MIN ≤ x ∧ x ≤ INT32_MAX

instance (x : Int) : Decidable (isInt32 x) :=
  inferInstanceAs (Decidable (INT32_MIN ≤ x ∧ x ≤ INT32_MAX))

/-- Mathematical clamp of an integer to the Q15 range, `clamp(x, -32768, 32767)`. -/
def clampQ15 (x : Int) : Int := max (-32768) (min x 32767)

/-! ## Memory -/

/-- Memory of `int16_t` cells, addressed by element. -/
abbrev Mem := Nat → Int

/-- Store of one `int16_t` cell. -/
def Mem.write (m : Mem) (p : Nat) (v : Int) : Mem :=
  fun q => if q = p then v else m q

/-- Memory whose first cells hold the given list and whose other cells hold 0. -/
def memOfList (l : List Int) : Mem := fun p => l.getD p 0

/-! ## Scalar kernel (`src/q15_axpy_scalar.c`) -/

/-- Translation of `saturate_q15`: clamp a 32-bit value to `[-32768, 32767]`. -/
def saturate_q15 (val : Int) : Int :=
  if val > INT16_MAX then
    INT16_MAX
  else if val < INT16_MIN then
    INT16_MIN
  else
    wrap16 val

/-- One iteration of the loop of `q15_axpy_scalar`, at index `i`. -/
def q15_axpy_scalar_body (alpha : Int) (a b y : Nat) (i : Nat) (m : Mem) : Mem :=
  let product := wrap32 (alpha * m (b + i))
  let sum := wrap32 (m (a + i) + product)
  m.write (y + i) (saturate_q15 sum)

/-- The loop `for (i = ...; i < n; i++)` of `q15_axpy_scalar`, started at index `i`
with `k = n - i` iterations left. -/
def q15_axpy_scalar_loop (alpha : Int) (a b y : Nat) : Nat → Nat → Mem → Mem
  | 0, _, m => m
  | k + 1, i, m =>
    q15_axpy_scalar_loop alpha a b y k (i + 1) (q15_axpy_scalar_body alpha a b y i m)

/-- Translation of `q15_axpy_scalar(n, alpha, a, b, y)` as a memory transformer. -/
def q15_axpy_scalar (n : Nat) (alpha : Int) (a b y : Nat) (m : Mem) : Mem :=
  q15_axpy_scalar_loop alpha a b y n 0 m

/-! ## RVV kernel (`src/q15_axpy_rvv.c`, vector build) -/

/-- Fixed-point rounding mode held in the `vxrm` register. -/
inductive Vxrm
  | rnu
  | rne
  | rdn
  | rod
  deriving DecidableEq

/-- Bit `i` of a two's complement integer. -/
def bitAt (v : Int) (i : Nat) : Int := (v / 2 ^ i) % 2

/-- Rounding increment `r` of the vector specification for a right shift by `d`. -/
def roundIncrement (vxrm : Vxrm) (v : Int) (d : Nat) : Int :=
  match vxrm with
  | Vxrm.rnu => if d = 0 then 0 else bitAt v (d - 1)
  | Vxrm.rne =>
    if d = 0 then 0
    else if bitAt v (d - 1) = 1 ∧ (v % 2 ^ (d - 1) ≠ 0 ∨ bitAt v d = 1) then 1 else 0
  | Vxrm.rdn => 0
  | Vxrm.rod => if bitAt v d = 0 ∧ v % 2 ^ d ≠ 0 then 1 else 0

/-- The `roundoff_signed(v, d) = (v >> d) + r` of the vector specification. -/
def roundoff_signed (vxrm : Vxrm) (v : Int) (d : Nat) : Int :=
  v / 2 ^ d + roundIncrement vxrm v d

/-- Signed saturation of a lane to 16 bits, as done by `vnclip`. -/
def clip16 (x : Int) : Int :=
  if x > 32767 then 32767 else if x < -32768 then -32768 else x

/-- Unit-stride load `__riscv_vle16_v_i16m1(base, vl)`: the `vl` active lanes. -/
def vle16 (m : Mem) (base vl : Nat) : List Int :=
  (List.range vl).map (fun j => m (base + j))

/-- Widening multiply `__riscv_vwmul_vx_i32m2(vs2, rs1, vl)`: each 16-bit lane times
the scalar, as a 32-bit lane. -/
def vwmul_vx (vs2 : List Int) (rs1 : Int) (vl : Nat) : List Int :=
  (vs2.take vl).map (fun x => wrap32 (x * rs1))

/-- Widening add `__riscv_vwadd_wv_i32m2(vs2, vs1, vl)`: 32-bit lane plus sign-extended
16-bit lane, as a 32-bit lane. -/
def vwadd_wv (vs2 vs1 : List Int) (vl : Nat) : List Int :=
  List.zipWith (fun w x => wrap32 (w + x)) (vs2.take vl) (vs1.take vl)

/-- Narrowing clip `__riscv_vnclip_wx_i16m1(vs2, rs1, vl)` under rounding mode `vxrm`:
shift right by the low five bits of `rs1` with rounding, then saturate to 16 bits. -/
def vnclip_wx (vxrm : Vxrm) (vs2 : List Int) (rs1 : Nat) (vl : Nat) : List Int :=
  (vs2.take vl).map (fun s => clip16 (roundoff_signed vxrm s (rs1 % 32)))

/-- Unit-stride store `__riscv_vse16_v_i16m1(base, v, vl)`. -/
def vse16 : Mem → Nat → List Int → Nat → Mem
  | m, _, _, 0 => m
  | m, _, [], _ + 1 => m
  | m, base, x :: xs, vl + 1 => vse16 (m.write base x) (base + 1) xs vl

/-- One iteration of the `while (n > 0)` loop of `q15_axpy_rvv` with `vl` lanes:
the memory after the store. -/
def q15_axpy_rvv_body (vxrm : Vxrm) (vl : Nat) (alpha : Int) (a b y : Nat) (m : Mem) : Mem :=
  let va := vle16 m a vl
  let vb := vle16 m b vl
  let v_product := vwmul_vx vb alpha vl
  let v_sum := vwadd_wv v_product va vl
  let v_result := vnclip_wx vxrm v_sum 0 vl
  vse16 m y v_result vl

/-- The loop `while (n > 0)` of `q15_axpy_rvv`.  `vsetvl` is the hart's answer to
`__riscv_vsetvl_e16m1`; the first argument bounds the number of iterations, and the
result is `none` when the bound is reached with elements still remaining. -/
def q15_axpy_rvv_loop (vsetvl : Nat → Nat) (vxrm : Vxrm) (alpha : Int) :
    Nat → Nat → Nat → Nat → Nat → Mem → Option Mem
  | 0, n, _, _, _, m => if n > 0 then none else some m
  | fuel + 1, n, a, b, y, m =>
    if n > 0 then
      let vl := vsetvl n
      let m1 := q15_axpy_rvv_body vxrm vl alpha a b y m
      q15_axpy_rvv_loop vsetvl vxrm alpha fuel (size_sub n vl) (a + vl) (b + vl) (y + vl) m1
    else
      some m

/-- Translation of the vector build of `q15_axpy_rvv(n, alpha, a, b, y)`. -/
def q15_axpy_rvv (vsetvl : Nat → Nat) (vxrm : Vxrm) (fuel : Nat)
    (n : Nat) (alpha : Int) (a b y : Nat) (m : Mem) : Option Mem :=
  q15_axpy_rvv_loop vsetvl vxrm alpha fuel n a b y m

/-- A lane-count answer acceptable for requests up to `n`: between 1 and the request. -/
def validVsetvl (vsetvl : Nat → Nat) (n : Nat) : Prop :=
  ∀ r, 0 < r → r ≤ n → 1 ≤ vsetvl r ∧ vsetvl r ≤ r

/-- The element every kernel must produce from `A[i]`, `B[i]` and `alpha`, with the
arithmetic of the scalar loop body. -/
def axpy_elem (alpha av bv : Int) : Int :=
  saturate_q15 (wrap32 (av + wrap32 (alpha * bv)))

/-- No store to `y[j]` hits a cell `a[i]` or `b[i]` that a later iteration reads:
true when `y` is disjoint from `a` and `b`, and also when `y` is exactly `a` or `b`. -/
def noClobber (n a b y : Nat) : Prop :=
  ∀ i j, j < i → i < n → y + j ≠ a + i ∧ y + j ≠ b + i

/-- Memory after an AXPY over `n` elements: the cells `y[0..n)` hold the elements
computed from the contents of `a` and `b` in `m`, every other cell is as in `m`. -/
def axpyMem (n : Nat) (alpha : Int) (a b y : Nat) (m : Mem) : Mem :=
  fun p => if y ≤ p ∧ p < y + n then axpy_elem alpha (m (a + (p - y))) (m (b + (p - y))) else m p

/-- Translation of the build of `q15_axpy_rvv` without `__riscv_vector`: the body is
the single call `q15_axpy_scalar(n, alpha, a, b, y)`. -/
def q15_axpy_rvv_fallback (n : Nat) (alpha : Int) (a b y : Nat) (m : Mem) : Mem :=
  q15_axpy_scalar n alpha a b y m

/-- One pass of the `while (n > 0)` loop of `q15_axpy_rvv`, as seen from its control
variables: the distance `off` the pointers have advanced from the arguments, the lane
count `vl` answered by `vsetvl`, and the remaining count `rem` on entry. -/
structure LaneGroup where
  off : Nat
  vl : Nat
  rem : Nat
  deriving DecidableEq

/-- The control skeleton of the loop of `q15_axpy_rvv`: the same test `n > 0`, the same
`vl = vsetvl(n)`, the same updates `n -= vl` and pointer `+= vl`, recording each pass
and leaving the lane arithmetic out. -/
def q15_axpy_rvv_groups (vsetvl : Nat → Nat) : Nat → Nat → Nat → Option (List LaneGroup)
  | 0, n, _ => if n > 0 then none else some []
  | fuel + 1, n, off =>
    if n > 0 then
      let vl := vsetvl n
      (q15_axpy_rvv_groups vsetvl fuel (size_sub n vl) (off + vl)).map
        (fun gs => LaneGroup.mk off vl n :: gs)
    else
      some []

/-- Memory after running the loads, lane arithmetic and store of `q15_axpy_rvv` for
each recorded pass in turn. -/
def runGroups (vxrm : Vxrm) (alpha : Int) (a b y : Nat) (gs : List LaneGroup) (m : Mem) : Mem :=
  gs.foldl (fun mem g =>
    q15_axpy_rvv_body vxrm g.vl alpha (a + g.off) (b + g.off) (y + g.off) mem) m

/-- The pass `g` loads and stores index `i`. -/
def LaneGroup.covers (g : LaneGroup) (i : Nat) : Bool :=
  decide (g.off ≤ i ∧ i < g.off + g.vl)

/-- The operand buffer a vector load reads. -/
inductive Operand
  | A
  | B
  deriving DecidableEq

/-- One element access of the vector unit: a load of the cell `addr` for an operand, or a
store of `val` to the cell `addr`. -/
inductive Access
  | load (src : Operand) (addr : Nat)
  | store (addr : Nat) (val : Int)
  deriving DecidableEq

/-- The element loads made by `__riscv_vle16_v_i16m1(base, vl)`: lane `j` reads the cell
`base + j`. -/
def vle16_log (src : Operand) (base vl : Nat) : List Access :=
  (List.range vl).map (fun j => Access.load src (base + j))

/-- The element stores made by `__riscv_vse16_v_i16m1(base, v, vl)`, lane by lane as in
`vse16`. -/
def vse16_log : Nat → List Int → Nat → List Access
  | _, _, 0 => []
  | _, [], _ + 1 => []
  | base, x :: xs, vl + 1 => Access.store base x :: vse16_log (base + 1) xs vl

/-- The accesses of one pass of the loop of `q15_axpy_rvv`, in program order: the load
of `a`, the load of `b`, then the store of the narrowed result to `y`. -/
def q15_axpy_rvv_body_log (vxrm : Vxrm) (vl : Nat) (alpha : Int) (a b y : Nat) (m : Mem) :
    List Access :=
  let va := vle16 m a vl
  let vb := vle16 m b vl
  let v_product := vwmul_vx vb alpha vl
  let v_sum := vwadd_wv v_product va vl
  let v_result := vnclip_wx vxrm v_sum 0 vl
  vle16_log Operand.A a vl ++ vle16_log Operand.B b vl ++ vse16_log y v_result vl

/-- The accesses made by the whole loop of `q15_axpy_rvv`, pass after pass, with the
same control and the same memory threading as `q15_axpy_rvv_loop`. -/
def q15_axpy_rvv_log (vsetvl : Nat → Nat) (vxrm : Vxrm) (alpha : Int) :
    Nat → Nat → Nat → Nat → Nat → Mem → Option (List Access)
  | 0, n, _, _, _, _ => if n > 0 then none else some []
  | fuel + 1, n, a, b, y, m =>
    if n > 0 then
      let vl := vsetvl n
      let m1 := q15_axpy_rvv_body vxrm vl alpha a b y m
      (q15_axpy_rvv_log vsetvl vxrm alpha fuel (size_sub n vl) (a + vl) (b + vl) (y + vl) m1).map
        (fun rest => q15_axpy_rvv_body_log vxrm vl alpha a b y m ++ rest)
    else
      some []

/-- The addresses loaded for one operand, in program order. -/
def loadsOf (src : Operand) (tr : List Access) : List Nat :=
  tr.filterMap (fun e =>
    match e with
    | Access.load s p => if s = src then some p else none
    | Access.store _ _ => none)

/-- The stores, as address and value, in program order. -/
def storesOf (tr : List Access) : List (Nat × Int) :=
  tr.filterMap (fun e =>
    match e with
    | Access.load _ _ => none
    | Access.store p v => some (p, v))

/-- Memory after performing the given stores in order. -/
def replayStores (ss : List (Nat × Int)) (m : Mem) : Mem :=
  ss.foldl (fun mem s => mem.write s.1 s.2) m

/-- Memory for a 127-element example: cell `p` holds `50 * (p mod 127)`. -/
def rampMem : Mem := fun p => 50 * ((p % 127 : Nat) : Int)

/-- The two-step computation that saturates the product before the addition,
`saturate(A[i] + saturate(alpha*B[i]))`; the kernels do not compute this. -/
def two_step_elem (alpha av bv : Int) : Int :=
  saturate_q15 (av + saturate_q15 (alpha * bv))

/-! ## Arithmetic lemmas -/

theorem wrap32_of_isInt32 {x : Int} (h : isInt32 x) : wrap32 x = x := by
  unfold isInt32 INT32_MIN INT32_MAX at h
  unfold wrap32
  omega

theorem wrap16_of_isInt16 {x : Int} (h : isInt16 x) : wrap16 x = x := by
  unfold isInt16 INT16_MIN INT16_MAX at h
  unfold wrap16
  omega

theorem saturate_q15_eq_clamp (x : Int) : saturate_q15 x = clampQ15 x := by
  unfold saturate_q15 clampQ15 wrap16 INT16_MAX INT16_MIN
  split_ifs <;> omega

theorem clip16_eq_saturate (x : Int) : clip16 x = saturate_q15 x := by
  unfold clip16 saturate_q15 wrap16 INT16_MAX INT16_MIN
  split_ifs <;> omega

theorem mul_int16_bounds {x y : Int} (hx : isInt16 x) (hy : isInt16 y) :
    -1073709056 ≤ x * y ∧ x * y ≤ 1073741824 := by
  unfold isInt16 INT16_MIN INT16_MAX at hx hy
  constructor
  · nlinarith [mul_nonneg (sub_nonneg.2 hx.1) (sub_nonneg.2 hy.2),
      mul_nonneg (sub_nonneg.2 hx.2) (sub_nonneg.2 hy.1)]
  · nlinarith [mul_nonneg (sub_nonneg.2 hx.1) (sub_nonneg.2 hy.1),
      mul_nonneg (sub_nonneg.2 hx.2) (sub_nonneg.2 hy.2)]

theorem axpy_elem_eq_clamp {alpha av bv : Int} (hα : isInt16 alpha) (ha : isInt16 av)
    (hb : isInt16 bv) : axpy_elem alpha av bv = clampQ15 (av + alpha * bv) := by
  have hp := mul_int16_bounds hα hb
  have h1 : wrap32 (alpha * bv) = alpha * bv :=
    wrap32_of_isInt32 (by unfold isInt32 INT32_MIN INT32_MAX; omega)
  have h2 : wrap32 (av + alpha * bv) = av + alpha * bv := by
    apply wrap32_of_isInt32
    unfold isInt16 INT16_MIN INT16_MAX at ha
    unfold isInt32 INT32_MIN INT32_MAX
    omega
  unfold axpy_elem
  rw [h1, h2, saturate_q15_eq_clamp]

theorem roundoff_signed_zero (vxrm : Vxrm) (s : Int) : roundoff_signed vxrm s 0 = s := by
  cases vxrm <;> simp [roundoff_signed, roundIncrement]

/-! ## Memory lemmas -/

theorem noClobber_shift {n a b y k : Nat} (h : noClobber n a b y) (hk : k ≤ n) :
    noClobber (n - k) (a + k) (b + k) (y + k) := by
  intro i j hji hin
  have := h (i + k) (j + k) (by omega) (by omega)
  omega

theorem noClobber_mono {n a b y k : Nat} (h : noClobber n a b y) (hk : k ≤ n) :
    noClobber k a b y := by
  intro i j hji hin
  exact h i j hji (by omega)

theorem axpyMem_zero (alpha : Int) (a b y : Nat) (m : Mem) : axpyMem 0 alpha a b y m = m := by
  funext p
  simp [axpyMem]

/-- Composition of two consecutive AXPY memory updates. -/
theorem axpyMem_comp {n k : Nat} (alpha : Int) {a b y : Nat} (m : Mem) (hk : k ≤ n)
    (h : noClobber n a b y) :
    axpyMem (n - k) alpha (a + k) (b + k) (y + k) (axpyMem k alpha a b y m)
      = axpyMem n alpha a b y m := by
  funext p
  unfold axpyMem
  by_cases h1 : y + k ≤ p ∧ p < y + k + (n - k)
  · have h2 : y ≤ p ∧ p < y + n := by omega
    have ea : a + k + (p - (y + k)) = a + (p - y) := by omega
    have eb : b + k + (p - (y + k)) = b + (p - y) := by omega
    have hc := h (p - y) 
    have na : ¬ (y ≤ a + (p - y) ∧ a + (p - y) < y + k) := by
      intro hh
      have := (hc (a + (p - y) - y) (by omega) (by omega)).1
      omega
    have nb : ¬ (y ≤ b + (p - y) ∧ b + (p - y) < y + k) := by
      intro hh
      have := (hc (b + (p - y) - y) (by omega) (by omega)).2
      omega
    simp only [h1, h2, ea, eb, na, nb, if_true, if_false, and_self]
  · by_cases h2 : y ≤ p ∧ p < y + k
    · have h3 : y ≤ p ∧ p < y + n := by omega
      simp only [h1, h2, h3, if_true, if_false, and_self]
    · have h3 : ¬ (y ≤ p ∧ p < y + n) := by omega
      simp only [h1, h2, h3, if_false]

/-! ## The scalar loop -/

theorem scalar_body_eq (alpha : Int) (a b y i : Nat) (m : Mem) :
    q15_axpy_scalar_body alpha a b y i m = axpyMem 1 alpha (a + i) (b + i) (y + i) m := by
  funext p
  unfold q15_axpy_scalar_body axpyMem Mem.write axpy_elem
  by_cases hp : p = y + i
  · subst hp
    simp
  · have : ¬ (y + i ≤ p ∧ p < y + i + 1) := by omega
    simp [hp, this]

/-- Cells outside `y[i..i+k)` are not touched by the scalar loop, whatever the aliasing. -/
theorem scalar_loop_frame (alpha : Int) (a b y : Nat) :
    ∀ (k i : Nat) (m : Mem) (p : Nat), (p < y + i ∨ y + i + k ≤ p) →
      q15_axpy_scalar_loop alpha a b y k i m p = m p := by
  intro k
  induction k with
  | zero => intro i m p _; rfl
  | succ k ih =>
    intro i m p hp
    rw [q15_axpy_scalar_loop, ih (i + 1) _ p (by omega)]
    unfold q15_axpy_scalar_body Mem.write
    have : p ≠ y + i := by omega
    simp [this]

theorem scalar_loop_eq (alpha : Int) (a b y : Nat) :
    ∀ (k i : Nat) (m : Mem), noClobber k (a + i) (b + i) (y + i) →
      q15_axpy_scalar_loop alpha a b y k i m = axpyMem k alpha (a + i) (b + i) (y + i) m := by
  intro k
  induction k with
  | zero => intro i m _; rw [axpyMem_zero]; rfl
  | succ k ih =>
    intro i m h
    have h1 : 1 ≤ k + 1 := by omega
    have hs : noClobber k (a + (i + 1)) (b + (i + 1)) (y + (i + 1)) := by
      simpa [Nat.add_assoc] using noClobber_shift h h1
    have hc : axpyMem k alpha (a + (i + 1)) (b + (i + 1)) (y + (i + 1))
        (axpyMem 1 alpha (a + i) (b + i) (y + i) m)
          = axpyMem (k + 1) alpha (a + i) (b + i) (y + i) m := by
      simpa [Nat.add_assoc] using axpyMem_comp alpha m h1 h
    rw [q15_axpy_scalar_loop, ih (i + 1) _ hs, scalar_body_eq, hc]

theorem scalar_eq_axpyMem {n : Nat} (alpha : Int) {a b y : Nat} (m : Mem)
    (h : noClobber n a b y) : q15_axpy_scalar n alpha a b y m = axpyMem n alpha a b y m := by
  have := scalar_loop_eq alpha a b y n 0 m (by simpa using h)
  simpa [q15_axpy_scalar] using this

/-! ## The vector loop -/

theorem vse16_apply : ∀ (v : List Int) (m : Mem) (base vl p : Nat),
    vse16 m base v vl p =
      if base ≤ p ∧ p < base + min vl v.length then v.getD (p - base) 0 else m p := by
  intro v
  induction v with
  | nil =>
    intro m base vl p
    have hn : ¬ (base ≤ p ∧ p < base) := by omega
    cases vl <;> simp [vse16, hn]
  | cons x xs ih =>
    intro m base vl p
    have hn : ¬ (base ≤ p ∧ p < base) := by omega
    cases vl with
    | zero => simp [vse16, hn]
    | succ vl =>
      rw [vse16, ih]
      by_cases h0 : p = base
      · subst h0
        simp [Mem.write]
      · by_cases h1 : base + 1 ≤ p ∧ p < base + 1 + min vl xs.length
        · have h2 : base ≤ p ∧ p < base + min (vl + 1) (xs.length + 1) := by
            simp only [Nat.succ_min_succ]; omega
          obtain ⟨q, rfl⟩ : ∃ q, p = base + 1 + q := ⟨p - (base + 1), by omega⟩
          have e1 : base + 1 + q - (base + 1) = q := by omega
          have e2 : base + 1 + q - base = q + 1 := by omega
          simp only [List.length_cons]
          rw [if_pos h1, if_pos h2, e1, e2]
          simp
        · have h2 : ¬ (base ≤ p ∧ p < base + min (vl + 1) (xs.length + 1)) := by
            simp only [Nat.succ_min_succ]; omega
          simp only [List.length_cons]
          rw [if_neg h1, if_neg h2]
          simp [Mem.write, h0]

theorem rvv_result_eq (vxrm : Vxrm) (vl : Nat) (alpha : Int) (a b : Nat) (m : Mem) :
    vnclip_wx vxrm (vwadd_wv (vwmul_vx (vle16 m b vl) alpha vl) (vle16 m a vl) vl) 0 vl
      = (List.range vl).map (fun j => axpy_elem alpha (m (a + j)) (m (b + j))) := by
  apply List.ext_getElem
  · simp [vnclip_wx, vwadd_wv, vwmul_vx, vle16]
  · intro j h1 h2
    simp [vnclip_wx, vwadd_wv, vwmul_vx, vle16, roundoff_signed_zero, clip16_eq_saturate,
      axpy_elem, Int.add_comm, Int.mul_comm]

theorem rvv_body_eq (vxrm : Vxrm) (vl : Nat) (alpha : Int) (a b y : Nat) (m : Mem) :
    q15_axpy_rvv_body vxrm vl alpha a b y m = axpyMem vl alpha a b y m := by
  funext p
  unfold q15_axpy_rvv_body
  simp only [rvv_result_eq, vse16_apply, axpyMem, List.length_map, List.length_range,
    Nat.min_self]
  by_cases h : y ≤ p ∧ p < y + vl
  · have : p - y < vl := by omega
    simp [h, List.getD_eq_getElem?_getD, this]
  · simp [h]

theorem size_sub_eq {n vl : Nat} (hn : n < SIZE_MOD) (h : vl ≤ n) : size_sub n vl = n - vl := by
  unfold size_sub
  unfold SIZE_MOD at *
  omega

theorem rvv_loop_eq (vsetvl : Nat → Nat) (vxrm : Vxrm) (alpha : Int) :
    ∀ (fuel n a b y : Nat) (m : Mem), n ≤ fuel → n < SIZE_MOD → validVsetvl vsetvl n →
      noClobber n a b y →
      q15_axpy_rvv_loop vsetvl vxrm alpha fuel n a b y m = some (axpyMem n alpha a b y m) := by
  intro fuel
  induction fuel with
  | zero =>
    intro n a b y m hf _ _ _
    have : n = 0 := by omega
    subst this
    simp [q15_axpy_rvv_loop, axpyMem_zero]
  | succ fuel ih =>
    intro n a b y m hf hn hv hc
    by_cases h0 : n > 0
    · obtain ⟨hv1, hv2⟩ := hv n h0 (Nat.le_refl n)
      have hv3 : validVsetvl vsetvl (n - vsetvl n) := fun r hr hr2 => hv r hr (by omega)
      simp only [q15_axpy_rvv_loop, h0, if_true]
      rw [size_sub_eq hn hv2, rvv_body_eq,
        ih (n - vsetvl n) _ _ _ _ (by omega) (by omega) hv3 (noClobber_shift hc hv2),
        axpyMem_comp alpha m hv2 hc]
    · have : n = 0 := by omega
      subst this
      simp [q15_axpy_rvv_loop, axpyMem_zero]

theorem rvv_eq_axpyMem {vsetvl : Nat → Nat} (vxrm : Vxrm) {fuel n : Nat} (alpha : Int)
    {a b y : Nat} (m : Mem) (hf : n ≤ fuel) (hn : n < SIZE_MOD) (hv : validVsetvl vsetvl n)
    (hc : noClobber n a b y) :
    q15_axpy_rvv vsetvl vxrm fuel n alpha a b y m = some (axpyMem n alpha a b y m) :=
  rvv_loop_eq vsetvl vxrm alpha fuel n a b y m hf hn hv hc

theorem saturate_q15_isInt16 (val : Int) : isInt16 (saturate_q15 val) := by
  unfold isInt16 saturate_q15 wrap16 INT16_MAX INT16_MIN
  split_ifs <;> omega

/-- Every cell of `y[i..i+k)` holds a saturated value after the scalar loop, whatever
the aliasing between the buffers. -/
theorem scalar_loop_range (alpha : Int) (a b y : Nat) :
    ∀ (k i : Nat) (m : Mem) (j : Nat), j < k →
      isInt16 (q15_axpy_scalar_loop alpha a b y k i m (y + i + j)) := by
  intro k
  induction k with
  | zero => intro i m j hj; omega
  | succ k ih =>
    intro i m j hj
    rw [q15_axpy_scalar_loop]
    cases j with
    | zero =>
      rw [scalar_loop_frame alpha a b y k (i + 1) _ (y + i + 0) (by omega)]
      simp only [q15_axpy_scalar_body, Mem.write, Nat.add_zero, if_true]
      exact saturate_q15_isInt16 _
    | succ j =>
      have := ih (i + 1) (q15_axpy_scalar_body alpha a b y i m) j (by omega)
      have e : y + (i + 1) + j = y + i + (j + 1) := by omega
      rwa [e] at this

theorem axpyMem_at {n : Nat} (alpha : Int) (a b y : Nat) (m : Mem) {i : Nat} (hi : i < n) :
    axpyMem n alpha a b y m (y + i) = axpy_elem alpha (m (a + i)) (m (b + i)) := by
  have h : y ≤ y + i ∧ y + i < y + n := by omega
  simp [axpyMem, h]

theorem clampQ15_of_isInt16 {x : Int} (h : isInt16 x) : clampQ15 x = x := by
  unfold isInt16 INT16_MIN INT16_MAX at h
  unfold clampQ15
  omega

/-! ## The claims -/

/-- C1 (scalar kernel correctness): for int16 `alpha` and int16 buffers `A`, `B`, when no
store to `Y` hits a cell of `A` or `B` that is still to be read, after
`q15_axpy_scalar(n, alpha, A, B, Y)` every index `i < n` satisfies
`Y[i] = clamp(A[i] + alpha*B[i], -32768, 32767)` with sum and product over the unbounded
integers, and a sum that is in range is returned exactly. -/
theorem scalar_kernel_correct (n : Nat) (alpha : Int) (a b y : Nat) (m : Mem)
    (hα : isInt16 alpha) (hA : ∀ i, i < n → isInt16 (m (a + i)))
    (hB : ∀ i, i < n → isInt16 (m (b + i))) (hc : noClobber n a b y)
    (i : Nat) (hi : i < n) :
    q15_axpy_scalar n alpha a b y m (y + i) = clampQ15 (m (a + i) + alpha * m (b + i)) ∧
    (isInt16 (m (a + i) + alpha * m (b + i)) →
      q15_axpy_scalar n alpha a b y m (y + i) = m (a + i) + alpha * m (b + i)) := by
  have h : q15_axpy_scalar n alpha a b y m (y + i)
      = clampQ15 (m (a + i) + alpha * m (b + i)) := by
    rw [scalar_eq_axpyMem alpha m hc, axpyMem_at alpha a b y m hi,
      axpy_elem_eq_clamp hα (hA i hi) (hB i hi)]
  exact ⟨h, fun hr => by rw [h, clampQ15_of_isInt16 hr]⟩

/-- Instance of C1 with `n = 2`, `alpha = 100`, `A = [32000, -5]`, `B = [100, 2]`, at
index 1, where the sum 195 is in range. -/
theorem scalar_kernel_correct_witness :
    (q15_axpy_scalar 2 100 0 2 4 (memOfList [32000, -5, 100, 2]) (4 + 1)
      = clampQ15 (memOfList [32000, -5, 100, 2] (0 + 1)
          + 100 * memOfList [32000, -5, 100, 2] (2 + 1))) ∧
    (isInt16 (memOfList [32000, -5, 100, 2] (0 + 1)
          + 100 * memOfList [32000, -5, 100, 2] (2 + 1)) →
      q15_axpy_scalar 2 100 0 2 4 (memOfList [32000, -5, 100, 2]) (4 + 1)
        = memOfList [32000, -5, 100, 2] (0 + 1)
          + 100 * memOfList [32000, -5, 100, 2] (2 + 1)) :=
  scalar_kernel_correct 2 100 0 2 4 (memOfList [32000, -5, 100, 2]) (by decide) (by decide)
    (by decide) (by intro i j h1 h2; omega) 1 (by decide)

/-- C2 (equivalence): for every `n` (a `size_t`), every `alpha`, every rounding mode and
every lane-count answer `vl` with `1 ≤ vl ≤ remaining`, the vector loop of `q15_axpy_rvv`
returns, and the memory it leaves is the memory `q15_axpy_scalar` leaves on the same
inputs, so `Y` is bit-identical (buffers such that no store to `Y` hits a cell of `A` or
`B` still to be read). -/
theorem rvv_equiv_scalar (vsetvl : Nat → Nat) (vxrm : Vxrm) (fuel n : Nat) (alpha : Int)
    (a b y : Nat) (m : Mem) (hf : n ≤ fuel) (hn : n < SIZE_MOD)
    (hv : validVsetvl vsetvl n) (hc : noClobber n a b y) :
    q15_axpy_rvv vsetvl vxrm fuel n alpha a b y m
      = some (q15_axpy_scalar n alpha a b y m) := by
  rw [rvv_eq_axpyMem vxrm alpha m hf hn hv hc, scalar_eq_axpyMem alpha m hc]

/-- Instance of C2 with `n = 7`, at most four lanes per iteration and rounding mode
round-to-nearest-even. -/
theorem rvv_equiv_scalar_witness :
    q15_axpy_rvv (fun r => min r 4) Vxrm.rne 7 7 12345 0 7 14
        (memOfList [32767, -32768, 5, 0, -1, 100, 7, 3, -3, 0, 9, -32768, 32767, 1])
      = some (q15_axpy_scalar 7 12345 0 7 14
        (memOfList [32767, -32768, 5, 0, -1, 100, 7, 3, -3, 0, 9, -32768, 32767, 1])) :=
  rvv_equiv_scalar (fun r => min r 4) Vxrm.rne 7 7 12345 0 7 14
    (memOfList [32767, -32768, 5, 0, -1, 100, 7, 3, -3, 0, 9, -32768, 32767, 1])
    (by decide) (by decide) (by intro r h1 h2; simp only []; omega)
    (by intro i j h1 h2; omega)

/-- C3 (output range): for every input and every `i < n` the value `q15_axpy_scalar`
leaves in `Y[i]` lies in `[-32768, 32767]`; `saturate_q15` maps every value into that
range, and on its pass-through branch the cast to `int16_t` does not change the value. -/
theorem scalar_output_in_range (n : Nat) (alpha : Int) (a b y : Nat) (m : Mem)
    (i : Nat) (hi : i < n) :
    isInt16 (q15_axpy_scalar n alpha a b y m (y + i)) ∧
    (∀ val : Int, isInt16 (saturate_q15 val)) ∧
    (∀ val : Int, ¬ val > INT16_MAX → ¬ val < INT16_MIN → wrap16 val = val) := by
  refine ⟨?_, saturate_q15_isInt16, ?_⟩
  · have := scalar_loop_range alpha a b y n 0 m i hi
    simpa [q15_axpy_scalar] using this
  · intro val h1 h2
    exact wrap16_of_isInt16 ⟨not_lt.1 h2, not_lt.1 h1⟩

/-- Instance of C3 with `n = 3`, `alpha = -32768` and `Y` overlapping `B`. -/
theorem scalar_output_in_range_witness :
    isInt16 (q15_axpy_scalar 3 (-32768) 0 1 1 (memOfList [-32768, 32767, 5, 9]) (1 + 2)) ∧
    (∀ val : Int, isInt16 (saturate_q15 val)) ∧
    (∀ val : Int, ¬ val > INT16_MAX → ¬ val < INT16_MIN → wrap16 val = val) :=
  scalar_output_in_range 3 (-32768) 0 1 1 (memOfList [-32768, 32767, 5, 9]) 2 (by decide)

/-- C4 as stated fails: with `alpha = 0`, `A[0] = 32767` the true sum is exactly 32767,
which does not exceed 32767, yet `Y[0] = 32767`; and with `A[0] = -32768` the true sum is
exactly -32768, not below it, yet `Y[0] = -32768`. -/
theorem saturation_boundary_counterexample :
    ¬ ((q15_axpy_scalar 1 0 0 1 2 (memOfList [32767, 0]) (2 + 0) = 32767 ↔
          memOfList [32767, 0] (0 + 0) + 0 * memOfList [32767, 0] (1 + 0) > 32767)) ∧
    ¬ ((q15_axpy_scalar 1 0 0 1 2 (memOfList [-32768, 0]) (2 + 0) = -32768 ↔
          memOfList [-32768, 0] (0 + 0) + 0 * memOfList [-32768, 0] (1 + 0) < -32768)) := by
  decide

/-- C4 (saturation boundary, amended): for int16 inputs and every `i < n`, `Y[i]` equals
32767 exactly when the true sum `A[i] + alpha*B[i]` is at least 32767, and equals -32768
exactly when the true sum is at most -32768; in particular a sum that exceeds a bound
gives that bound. -/
theorem saturation_boundary (n : Nat) (alpha : Int) (a b y : Nat) (m : Mem)
    (hα : isInt16 alpha) (hA : ∀ i, i < n → isInt16 (m (a + i)))
    (hB : ∀ i, i < n → isInt16 (m (b + i))) (hc : noClobber n a b y)
    (i : Nat) (hi : i < n) :
    (q15_axpy_scalar n alpha a b y m (y + i) = 32767 ↔
      m (a + i) + alpha * m (b + i) ≥ 32767) ∧
    (q15_axpy_scalar n alpha a b y m (y + i) = -32768 ↔
      m (a + i) + alpha * m (b + i) ≤ -32768) ∧
    (m (a + i) + alpha * m (b + i) > 32767 →
      q15_axpy_scalar n alpha a b y m (y + i) = 32767) ∧
    (m (a + i) + alpha * m (b + i) < -32768 →
      q15_axpy_scalar n alpha a b y m (y + i) = -32768) := by
  have h : q15_axpy_scalar n alpha a b y m (y + i)
      = clampQ15 (m (a + i) + alpha * m (b + i)) := by
    rw [scalar_eq_axpyMem alpha m hc, axpyMem_at alpha a b y m hi,
      axpy_elem_eq_clamp hα (hA i hi) (hB i hi)]
  rw [h]
  generalize m (a + i) + alpha * m (b + i) = s
  unfold clampQ15
  refine ⟨?_, ?_, ?_, ?_⟩
  · constructor <;> intro h1 <;> omega
  · constructor <;> intro h1 <;> omega
  · intro h1; omega
  · intro h1; omega

/-- Instance of the amended C4 with `n = 2`, `alpha = -100`, at index 1, where the sum
is exactly 32767. -/
theorem saturation_boundary_witness :
    (q15_axpy_scalar 2 (-100) 0 2 4 (memOfList [-32000, 32767, 100, 0]) (4 + 1) = 32767 ↔
      memOfList [-32000, 32767, 100, 0] (0 + 1)
        + -100 * memOfList [-32000, 32767, 100, 0] (2 + 1) ≥ 32767) ∧
    (q15_axpy_scalar 2 (-100) 0 2 4 (memOfList [-32000, 32767, 100, 0]) (4 + 1) = -32768 ↔
      memOfList [-32000, 32767, 100, 0] (0 + 1)
        + -100 * memOfList [-32000, 32767, 100, 0] (2 + 1) ≤ -32768) ∧
    (memOfList [-32000, 32767, 100, 0] (0 + 1)
        + -100 * memOfList [-32000, 32767, 100, 0] (2 + 1) > 32767 →
      q15_axpy_scalar 2 (-100) 0 2 4 (memOfList [-32000, 32767, 100, 0]) (4 + 1) = 32767) ∧
    (memOfList [-32000, 32767, 100, 0] (0 + 1)
        + -100 * memOfList [-32000, 32767, 100, 0] (2 + 1) < -32768 →
      q15_axpy_scalar 2 (-100) 0 2 4 (memOfList [-32000, 32767, 100, 0]) (4 + 1)
        = -32768) :=
  saturation_boundary 2 (-100) 0 2 4 (memOfList [-32000, 32767, 100, 0]) (by decide)
    (by decide) (by decide) (by intro i j h1 h2; omega) 1 (by decide)

/-- C5 (no intermediate overflow): for int16 `alpha`, `A[i]`, `B[i]` the product
`alpha*B[i]` and the sum `A[i] + alpha*B[i]` lie in the signed 32-bit range, the wrapping
32-bit product and sum of the loop body equal the unbounded ones, and the element the
kernel stores is the saturation of the unbounded sum. -/
theorem no_intermediate_overflow (n : Nat) (alpha : Int) (a b y : Nat) (m : Mem)
    (hα : isInt16 alpha) (hA : ∀ i, i < n → isInt16 (m (a + i)))
    (hB : ∀ i, i < n → isInt16 (m (b + i))) (hc : noClobber n a b y)
    (i : Nat) (hi : i < n) :
    isInt32 (alpha * m (b + i)) ∧
    isInt32 (m (a + i) + alpha * m (b + i)) ∧
    wrap32 (alpha * m (b + i)) = alpha * m (b + i) ∧
    wrap32 (m (a + i) + wrap32 (alpha * m (b + i))) = m (a + i) + alpha * m (b + i) ∧
    q15_axpy_scalar n alpha a b y m (y + i)
      = saturate_q15 (m (a + i) + alpha * m (b + i)) := by
  have hp := mul_int16_bounds hα (hB i hi)
  have ha := hA i hi
  have h1 : isInt32 (alpha * m (b + i)) := by
    unfold isInt32 INT32_MIN INT32_MAX; omega
  have h2 : isInt32 (m (a + i) + alpha * m (b + i)) := by
    unfold isInt16 INT16_MIN INT16_MAX at ha
    unfold isInt32 INT32_MIN INT32_MAX; omega
  have h3 := wrap32_of_isInt32 h1
  have h4 : wrap32 (m (a + i) + wrap32 (alpha * m (b + i)))
      = m (a + i) + alpha * m (b + i) := by
    rw [h3, wrap32_of_isInt32 h2]
  refine ⟨h1, h2, h3, h4, ?_⟩
  rw [scalar_eq_axpyMem alpha m hc, axpyMem_at alpha a b y m hi]
  unfold axpy_elem
  rw [h4]

/-- Instance of C5 at the extreme `alpha = A[0] = B[0] = -32768`. -/
theorem no_intermediate_overflow_witness :
    isInt32 (-32768 * memOfList [-32768, -32768] (1 + 0)) ∧
    isInt32 (memOfList [-32768, -32768] (0 + 0) + -32768 * memOfList [-32768, -32768] (1 + 0)) ∧
    wrap32 (-32768 * memOfList [-32768, -32768] (1 + 0))
      = -32768 * memOfList [-32768, -32768] (1 + 0) ∧
    wrap32 (memOfList [-32768, -32768] (0 + 0)
        + wrap32 (-32768 * memOfList [-32768, -32768] (1 + 0)))
      = memOfList [-32768, -32768] (0 + 0) + -32768 * memOfList [-32768, -32768] (1 + 0) ∧
    q15_axpy_scalar 1 (-32768) 0 1 2 (memOfList [-32768, -32768]) (2 + 0)
      = saturate_q15 (memOfList [-32768, -32768] (0 + 0)
          + -32768 * memOfList [-32768, -32768] (1 + 0)) :=
  no_intermediate_overflow 1 (-32768) 0 1 2 (memOfList [-32768, -32768]) (by decide)
    (by decide) (by decide) (by intro i j h1 h2; omega) 0 (by decide)

theorem axpy_elem_zero {av : Int} (bv : Int) (ha : isInt16 av) : axpy_elem 0 av bv = av := by
  unfold isInt16 INT16_MIN INT16_MAX at ha
  unfold axpy_elem saturate_q15 wrap32 wrap16 INT16_MAX INT16_MIN
  simp only [Int.zero_mul]
  split_ifs <;> omega

theorem axpy_elem_one {av bv : Int} (ha : isInt16 av) (hb : isInt16 bv) :
    axpy_elem 1 av bv = saturate_q15 (av + bv) := by
  unfold isInt16 INT16_MIN INT16_MAX at ha hb
  have h1 : wrap32 (1 * bv) = bv := by unfold wrap32; omega
  have h2 : wrap32 (av + bv) = av + bv := by unfold wrap32; omega
  unfold axpy_elem
  rw [h1, h2]

/-- C6 (identity at alpha = 0): for int16 `A`, whatever `B` holds, `q15_axpy_scalar` with
`alpha = 0` leaves `Y[i] = A[i]` for every `i < n`, and so does the vector loop of
`q15_axpy_rvv`, which returns for every rounding mode and every lane-count answer between
1 and the remaining count. -/
theorem alpha_zero_identity (n : Nat) (a b y : Nat) (m : Mem)
    (hA : ∀ i, i < n → isInt16 (m (a + i))) (hc : noClobber n a b y) :
    (∀ i, i < n → q15_axpy_scalar n 0 a b y m (y + i) = m (a + i)) ∧
    (∀ (vsetvl : Nat → Nat) (vxrm : Vxrm) (fuel : Nat), n ≤ fuel → n < SIZE_MOD →
      validVsetvl vsetvl n →
      ∃ m', q15_axpy_rvv vsetvl vxrm fuel n 0 a b y m = some m' ∧
        ∀ i, i < n → m' (y + i) = m (a + i)) := by
  have h : ∀ i, i < n → axpyMem n 0 a b y m (y + i) = m (a + i) := fun i hi => by
    rw [axpyMem_at 0 a b y m hi, axpy_elem_zero _ (hA i hi)]
  constructor
  · intro i hi
    rw [scalar_eq_axpyMem 0 m hc]
    exact h i hi
  · intro vsetvl vxrm fuel hf hn hv
    exact ⟨_, rvv_eq_axpyMem vxrm 0 m hf hn hv hc, h⟩

/-- Instance of C6 with `n = 3`, `A = [100, -200, 32767]`, `B = [1, 2, -32768]`. -/
theorem alpha_zero_identity_witness :
    (∀ i, i < 3 → q15_axpy_scalar 3 0 0 3 6 (memOfList [100, -200, 32767, 1, 2, -32768]) (6 + i)
      = memOfList [100, -200, 32767, 1, 2, -32768] (0 + i)) ∧
    (∀ (vsetvl : Nat → Nat) (vxrm : Vxrm) (fuel : Nat), 3 ≤ fuel → 3 < SIZE_MOD →
      validVsetvl vsetvl 3 →
      ∃ m', q15_axpy_rvv vsetvl vxrm fuel 3 0 0 3 6
          (memOfList [100, -200, 32767, 1, 2, -32768]) = some m' ∧
        ∀ i, i < 3 → m' (6 + i) = memOfList [100, -200, 32767, 1, 2, -32768] (0 + i)) :=
  alpha_zero_identity 3 0 3 6 (memOfList [100, -200, 32767, 1, 2, -32768]) (by decide)
    (by intro i j h1 h2; omega)

/-- C7 (identity at alpha = 1): for int16 `A` and `B`, the kernel with `alpha = 1` leaves
`Y[i] = saturate(A[i] + B[i])` for every `i < n`, the saturating 16-bit addition; this
holds for `q15_axpy_scalar` and for the vector loop of `q15_axpy_rvv`. -/
theorem alpha_one_saturating_add (n : Nat) (a b y : Nat) (m : Mem)
    (hA : ∀ i, i < n → isInt16 (m (a + i))) (hB : ∀ i, i < n → isInt16 (m (b + i)))
    (hc : noClobber n a b y) :
    (∀ i, i < n → q15_axpy_scalar n 1 a b y m (y + i) = saturate_q15 (m (a + i) + m (b + i)) ∧
      saturate_q15 (m (a + i) + m (b + i)) = clampQ15 (m (a + i) + m (b + i))) ∧
    (∀ (vsetvl : Nat → Nat) (vxrm : Vxrm) (fuel : Nat), n ≤ fuel → n < SIZE_MOD →
      validVsetvl vsetvl n →
      ∃ m', q15_axpy_rvv vsetvl vxrm fuel n 1 a b y m = some m' ∧
        ∀ i, i < n → m' (y + i) = saturate_q15 (m (a + i) + m (b + i))) := by
  have h : ∀ i, i < n →
      axpyMem n 1 a b y m (y + i) = saturate_q15 (m (a + i) + m (b + i)) := fun i hi => by
    rw [axpyMem_at 1 a b y m hi, axpy_elem_one (hA i hi) (hB i hi)]
  constructor
  · intro i hi
    rw [scalar_eq_axpyMem 1 m hc]
    exact ⟨h i hi, saturate_q15_eq_clamp _⟩
  · intro vsetvl vxrm fuel hf hn hv
    exact ⟨_, rvv_eq_axpyMem vxrm 1 m hf hn hv hc, h⟩

/-- Instance of C7 with `n = 2`, `A = [32000, -5]`, `B = [1000, 3]`. -/
theorem alpha_one_saturating_add_witness :
    (∀ i, i < 2 → q15_axpy_scalar 2 1 0 2 4 (memOfList [32000, -5, 1000, 3]) (4 + i)
        = saturate_q15 (memOfList [32000, -5, 1000, 3] (0 + i)
            + memOfList [32000, -5, 1000, 3] (2 + i)) ∧
      saturate_q15 (memOfList [32000, -5, 1000, 3] (0 + i)
            + memOfList [32000, -5, 1000, 3] (2 + i))
        = clampQ15 (memOfList [32000, -5, 1000, 3] (0 + i)
            + memOfList [32000, -5, 1000, 3] (2 + i))) ∧
    (∀ (vsetvl : Nat → Nat) (vxrm : Vxrm) (fuel : Nat), 2 ≤ fuel → 2 < SIZE_MOD →
      validVsetvl vsetvl 2 →
      ∃ m', q15_axpy_rvv vsetvl vxrm fuel 2 1 0 2 4 (memOfList [32000, -5, 1000, 3])
          = some m' ∧
        ∀ i, i < 2 → m' (4 + i) = saturate_q15 (memOfList [32000, -5, 1000, 3] (0 + i)
            + memOfList [32000, -5, 1000, 3] (2 + i))) :=
  alpha_one_saturating_add 2 0 2 4 (memOfList [32000, -5, 1000, 3]) (by decide) (by decide)
    (by intro i j h1 h2; omega)

/-- C8 (extremes): for every `n`, when `alpha` and every `A[i]`, `B[i]` are `INT16_MAX`
every `Y[i]` is `INT16_MAX`; when they are all `INT16_MIN` every `Y[i]` is the saturation
of `-32768 + (-32768)*(-32768) = 1073709056`, that is 32767. -/
theorem extremes_saturate (n : Nat) (a b y : Nat) (mmax mmin : Mem)
    (hAmax : ∀ i, i < n → mmax (a + i) = INT16_MAX)
    (hBmax : ∀ i, i < n → mmax (b + i) = INT16_MAX)
    (hAmin : ∀ i, i < n → mmin (a + i) = INT16_MIN)
    (hBmin : ∀ i, i < n → mmin (b + i) = INT16_MIN)
    (hc : noClobber n a b y) :
    (∀ i, i < n → q15_axpy_scalar n INT16_MAX a b y mmax (y + i) = INT16_MAX) ∧
    (∀ i, i < n → q15_axpy_scalar n INT16_MIN a b y mmin (y + i) = 32767) ∧
    INT16_MIN + INT16_MIN * INT16_MIN = 1073709056 ∧
    saturate_q15 1073709056 = 32767 := by
  refine ⟨?_, ?_, by decide, by decide⟩
  · intro i hi
    rw [scalar_eq_axpyMem _ mmax hc, axpyMem_at _ a b y mmax hi, hAmax i hi, hBmax i hi]
    decide
  · intro i hi
    rw [scalar_eq_axpyMem _ mmin hc, axpyMem_at _ a b y mmin hi, hAmin i hi, hBmin i hi]
    decide

/-- Instance of C8 with `n = 2`. -/
theorem extremes_saturate_witness :
    (∀ i, i < 2 → q15_axpy_scalar 2 INT16_MAX 0 2 4
        (memOfList [32767, 32767, 32767, 32767]) (4 + i) = INT16_MAX) ∧
    (∀ i, i < 2 → q15_axpy_scalar 2 INT16_MIN 0 2 4
        (memOfList [-32768, -32768, -32768, -32768]) (4 + i) = 32767) ∧
    INT16_MIN + INT16_MIN * INT16_MIN = 1073709056 ∧
    saturate_q15 1073709056 = 32767 :=
  extremes_saturate 2 0 2 4 (memOfList [32767, 32767, 32767, 32767])
    (memOfList [-32768, -32768, -32768, -32768]) (by decide) (by decide) (by decide)
    (by decide) (by intro i j h1 h2; omega)

/-- C9 (saturation scenarios): for every `n` and every int16 `B` whose elements are
all at least 8, `alpha = 100` with every `A[i] = 32000` gives every `Y[i] = 32767`, and
`alpha = -100` with every `A[i] = -32000` gives every `Y[i] = -32768`. -/
theorem saturation_scenarios (n : Nat) (a b y : Nat) (mpos mneg : Mem)
    (hApos : ∀ i, i < n → mpos (a + i) = 32000)
    (hBpos : ∀ i, i < n → 8 ≤ mpos (b + i) ∧ mpos (b + i) ≤ INT16_MAX)
    (hAneg : ∀ i, i < n → mneg (a + i) = -32000)
    (hBneg : ∀ i, i < n → 8 ≤ mneg (b + i) ∧ mneg (b + i) ≤ INT16_MAX)
    (hc : noClobber n a b y) :
    (∀ i, i < n → q15_axpy_scalar n 100 a b y mpos (y + i) = 32767) ∧
    (∀ i, i < n → q15_axpy_scalar n (-100) a b y mneg (y + i) = -32768) := by
  constructor
  · intro i hi
    have hb := hBpos i hi
    unfold INT16_MAX at hb
    have hb16 : isInt16 (mpos (b + i)) := by
      unfold isInt16 INT16_MIN INT16_MAX; omega
    rw [scalar_eq_axpyMem _ mpos hc, axpyMem_at _ a b y mpos hi, hApos i hi,
      axpy_elem_eq_clamp (by decide) (by decide) hb16]
    unfold clampQ15
    omega
  · intro i hi
    have hb := hBneg i hi
    unfold INT16_MAX at hb
    have hb16 : isInt16 (mneg (b + i)) := by
      unfold isInt16 INT16_MIN INT16_MAX; omega
    rw [scalar_eq_axpyMem _ mneg hc, axpyMem_at _ a b y mneg hi, hAneg i hi,
      axpy_elem_eq_clamp (by decide) (by decide) hb16]
    unfold clampQ15
    omega

/-- Instance of C9 with `n = 8` and `B = [100, 200, ..., 800]`, the data of the tests
`test_positive_saturation` and `test_negative_saturation`. -/
theorem saturation_scenarios_witness :
    (∀ i, i < 8 → q15_axpy_scalar 8 100 0 8 16
        (memOfList [32000, 32000, 32000, 32000, 32000, 32000, 32000, 32000,
          100, 200, 300, 400, 500, 600, 700, 800]) (16 + i) = 32767) ∧
    (∀ i, i < 8 → q15_axpy_scalar 8 (-100) 0 8 16
        (memOfList [-32000, -32000, -32000, -32000, -32000, -32000, -32000, -32000,
          100, 200, 300, 400, 500, 600, 700, 800]) (16 + i) = -32768) :=
  saturation_scenarios 8 0 8 16
    (memOfList [32000, 32000, 32000, 32000, 32000, 32000, 32000, 32000,
      100, 200, 300, 400, 500, 600, 700, 800])
    (memOfList [-32000, -32000, -32000, -32000, -32000, -32000, -32000, -32000,
      100, 200, 300, 400, 500, 600, 700, 800])
    (by decide) (by decide) (by decide) (by decide) (by intro i j h1 h2; omega)

/-- C10 (frame): `q15_axpy_scalar` writes only `Y[0..n)`: every cell outside `Y[0..n)`
is unchanged, so every element of `Y` at an index `≥ n` is unchanged and the cells of `A`
and `B` that lie outside `Y[0..n)` are unchanged; with `n = 0` the call leaves the whole
memory unchanged. -/
theorem scalar_frame (n : Nat) (alpha : Int) (a b y : Nat) (m : Mem) :
    (∀ p, (p < y ∨ y + n ≤ p) → q15_axpy_scalar n alpha a b y m p = m p) ∧
    (∀ k, n ≤ k → q15_axpy_scalar n alpha a b y m (y + k) = m (y + k)) ∧
    (∀ i, (a + i < y ∨ y + n ≤ a + i) → q15_axpy_scalar n alpha a b y m (a + i) = m (a + i)) ∧
    (∀ i, (b + i < y ∨ y + n ≤ b + i) → q15_axpy_scalar n alpha a b y m (b + i) = m (b + i)) ∧
    q15_axpy_scalar 0 alpha a b y m = m := by
  have h : ∀ p, (p < y ∨ y + n ≤ p) → q15_axpy_scalar n alpha a b y m p = m p := by
    intro p hp
    exact scalar_loop_frame alpha a b y n 0 m p (by omega)
  exact ⟨h, fun k hk => h _ (by omega), fun i hi => h _ hi, fun i hi => h _ hi, rfl⟩

/-- Instance of C10: a call with `n = 2` on `A = [1, 2]`, `B = [3, 4]`, `Y` at cells 4
and 5 leaves cell 6, which holds 77, and the cells of `A` and `B` as they were. -/
theorem scalar_frame_witness :
    q15_axpy_scalar 2 5 0 2 4 (memOfList [1, 2, 3, 4, 9, 9, 77]) (4 + 2) = 77 ∧
    q15_axpy_scalar 2 5 0 2 4 (memOfList [1, 2, 3, 4, 9, 9, 77]) (0 + 1) = 2 ∧
    q15_axpy_scalar 2 5 0 2 4 (memOfList [1, 2, 3, 4, 9, 9, 77]) (2 + 1) = 4 :=
  ⟨(scalar_frame 2 5 0 2 4 (memOfList [1, 2, 3, 4, 9, 9, 77])).2.1 2 (by decide),
   (scalar_frame 2 5 0 2 4 (memOfList [1, 2, 3, 4, 9, 9, 77])).2.2.1 1 (by decide),
   (scalar_frame 2 5 0 2 4 (memOfList [1, 2, 3, 4, 9, 9, 77])).2.2.2.1 1 (by decide)⟩

/-- C11 (fallback): in the build without vector support `q15_axpy_rvv` is exactly
`q15_axpy_scalar` for every input, with no condition on `n`, `alpha` or the data, so it
inherits the scalar contract: every `Y[i]` is in the Q15 range, and for int16 inputs it is
`clamp(A[i] + alpha*B[i])`. -/
theorem fallback_is_scalar (n : Nat) (alpha : Int) (a b y : Nat) (m : Mem) :
    q15_axpy_rvv_fallback n alpha a b y m = q15_axpy_scalar n alpha a b y m ∧
    (∀ i, i < n → isInt16 (q15_axpy_rvv_fallback n alpha a b y m (y + i))) ∧
    (isInt16 alpha → (∀ i, i < n → isInt16 (m (a + i))) → (∀ i, i < n → isInt16 (m (b + i))) →
      noClobber n a b y →
      ∀ i, i < n → q15_axpy_rvv_fallback n alpha a b y m (y + i)
        = clampQ15 (m (a + i) + alpha * m (b + i))) := by
  refine ⟨rfl, ?_, ?_⟩
  · intro i hi
    have := scalar_loop_range alpha a b y n 0 m i hi
    simpa [q15_axpy_rvv_fallback, q15_axpy_scalar] using this
  · intro hα hA hB hc i hi
    unfold q15_axpy_rvv_fallback
    rw [scalar_eq_axpyMem alpha m hc, axpyMem_at alpha a b y m hi,
      axpy_elem_eq_clamp hα (hA i hi) (hB i hi)]

/-- Instance of C11 with `n = 2`, `alpha = -7890`, `A = [12345, -1]`, `B = [6789, 4]`:
the fallback stores -32768 and -31561. -/
theorem fallback_is_scalar_witness :
    q15_axpy_rvv_fallback 2 (-7890) 0 2 4 (memOfList [12345, -1, 6789, 4]) (4 + 0) = -32768 ∧
    q15_axpy_rvv_fallback 2 (-7890) 0 2 4 (memOfList [12345, -1, 6789, 4]) (4 + 1) = -31561 := by
  have h := (fallback_is_scalar 2 (-7890) 0 2 4 (memOfList [12345, -1, 6789, 4])).2.2
    (by decide) (by decide) (by decide) (by intro i j h1 h2; omega)
  exact ⟨(h 0 (by decide)).trans (by decide), (h 1 (by decide)).trans (by decide)⟩

/-- The vector loop is its control skeleton with the lane work of each pass run in
order; this holds for every `vsetvl`, valid or not. -/
theorem rvv_loop_eq_runGroups (vsetvl : Nat → Nat) (vxrm : Vxrm) (alpha : Int) (a b y : Nat) :
    ∀ (fuel n off : Nat) (m : Mem),
      q15_axpy_rvv_loop vsetvl vxrm alpha fuel n (a + off) (b + off) (y + off) m
        = (q15_axpy_rvv_groups vsetvl fuel n off).map
            (fun gs => runGroups vxrm alpha a b y gs m) := by
  intro fuel
  induction fuel with
  | zero =>
    intro n off m
    by_cases h0 : n > 0
    · simp [q15_axpy_rvv_loop, q15_axpy_rvv_groups, h0]
    · simp [q15_axpy_rvv_loop, q15_axpy_rvv_groups, h0, runGroups]
  | succ fuel ih =>
    intro n off m
    by_cases h0 : n > 0
    · have := ih (size_sub n (vsetvl n)) (off + vsetvl n)
        (q15_axpy_rvv_body vxrm (vsetvl n) alpha (a + off) (b + off) (y + off) m)
      simp only [q15_axpy_rvv_loop, q15_axpy_rvv_groups, h0, if_true, Option.map_map,
        Nat.add_assoc]
      rw [this]
      rfl
    · simp [q15_axpy_rvv_loop, q15_axpy_rvv_groups, h0, runGroups]

/-- Under a valid lane-count answer the control skeleton returns, every pass takes
between 1 and the remaining count, the remaining count is the distance to the end, the
lane counts add up to `n`, and the passes cover each index of `[off, off + n)` once. -/
theorem rvv_groups_spec (vsetvl : Nat → Nat) :
    ∀ (fuel n off : Nat), n ≤ fuel → n < SIZE_MOD → validVsetvl vsetvl n →
      ∃ gs, q15_axpy_rvv_groups vsetvl fuel n off = some gs ∧
        (∀ g ∈ gs, off ≤ g.off ∧ 1 ≤ g.vl ∧ g.vl ≤ g.rem ∧ g.off + g.rem = off + n) ∧
        (gs.map LaneGroup.vl).sum = n ∧
        ∀ i, off ≤ i → i < off + n → gs.countP (fun g => g.covers i) = 1 := by
  intro fuel
  induction fuel with
  | zero =>
    intro n off hf _ _
    have : n = 0 := by omega
    subst this
    refine ⟨[], by simp [q15_axpy_rvv_groups], by simp, by simp, ?_⟩
    intro i h1 h2
    omega
  | succ fuel ih =>
    intro n off hf hn hv
    by_cases h0 : n > 0
    · obtain ⟨hv1, hv2⟩ := hv n h0 (Nat.le_refl n)
      have hv3 : validVsetvl vsetvl (n - vsetvl n) := fun r hr hr2 => hv r hr (by omega)
      obtain ⟨gs, hgs, hall, hsum, hcnt⟩ :=
        ih (n - vsetvl n) (off + vsetvl n) (by omega) (by omega) hv3
      refine ⟨LaneGroup.mk off (vsetvl n) n :: gs, ?_, ?_, ?_, ?_⟩
      · simp only [q15_axpy_rvv_groups, h0, if_true, size_sub_eq hn hv2, hgs, Option.map_some']
      · intro g hg
        rcases List.mem_cons.1 hg with rfl | hg
        · exact ⟨Nat.le_refl _, hv1, hv2, rfl⟩
        · have := hall g hg
          omega
      · simp only [List.map_cons, List.sum_cons, hsum]
        omega
      · intro i h1 h2
        rw [List.countP_cons]
        by_cases hi : i < off + vsetvl n
        · have hz : gs.countP (fun g => g.covers i) = 0 := by
            rw [List.countP_eq_zero]
            intro g hg
            have := hall g hg
            simp only [LaneGroup.covers, decide_eq_true_eq]
            omega
          have hc : (LaneGroup.mk off (vsetvl n) n).covers i = true := by
            simp only [LaneGroup.covers, decide_eq_true_eq]
            omega
          rw [hz, hc]
          rfl
        · have hc : (LaneGroup.mk off (vsetvl n) n).covers i = false := by
            simp only [LaneGroup.covers, decide_eq_false_iff_not]
            omega
          rw [hcnt i (by omega) (by omega), hc]
          rfl
    · have : n = 0 := by omega
      subst this
      refine ⟨[], by simp [q15_axpy_rvv_groups], by simp, by simp, ?_⟩
      intro i h1 h2
      omega

/-! ### The accesses of the vector loop -/

theorem loadsOf_append (src : Operand) (t1 t2 : List Access) :
    loadsOf src (t1 ++ t2) = loadsOf src t1 ++ loadsOf src t2 := by
  simp [loadsOf]

theorem storesOf_append (t1 t2 : List Access) :
    storesOf (t1 ++ t2) = storesOf t1 ++ storesOf t2 := by
  simp [storesOf]

theorem replayStores_append (s1 s2 : List (Nat × Int)) (m : Mem) :
    replayStores (s1 ++ s2) m = replayStores s2 (replayStores s1 m) := by
  simp [replayStores]

theorem loadsOf_vle16_log_same (src : Operand) (base vl : Nat) :
    loadsOf src (vle16_log src base vl) = (List.range vl).map (fun j => base + j) := by
  unfold vle16_log
  generalize List.range vl = l
  induction l with
  | nil => rfl
  | cons j l ih =>
    simp only [loadsOf] at ih
    simp [loadsOf, ih]

theorem loadsOf_vle16_log_other {src src' : Operand} (h : src' ≠ src) (base vl : Nat) :
    loadsOf src (vle16_log src' base vl) = [] := by
  simp [loadsOf, vle16_log, List.filterMap_map, Function.comp_def, h]

theorem storesOf_vle16_log (src : Operand) (base vl : Nat) :
    storesOf (vle16_log src base vl) = [] := by
  simp [storesOf, vle16_log, List.filterMap_map, Function.comp_def]

theorem loadsOf_vse16_log (src : Operand) :
    ∀ (v : List Int) (base vl : Nat), loadsOf src (vse16_log base v vl) = [] := by
  intro v
  induction v with
  | nil => intro base vl; cases vl <;> simp [vse16_log, loadsOf]
  | cons x xs ih =>
    intro base vl
    cases vl with
    | zero => simp [vse16_log, loadsOf]
    | succ vl =>
      have := ih (base + 1) vl
      simp only [loadsOf] at this
      simp [vse16_log, loadsOf, this]

/-- Performing the logged stores of `vse16` in order gives the memory `vse16` returns. -/
theorem replay_vse16_log :
    ∀ (v : List Int) (m : Mem) (base vl : Nat),
      replayStores (storesOf (vse16_log base v vl)) m = vse16 m base v vl := by
  intro v
  induction v with
  | nil => intro m base vl; cases vl <;> simp [vse16_log, storesOf, vse16, replayStores]
  | cons x xs ih =>
    intro m base vl
    cases vl with
    | zero => simp [vse16_log, storesOf, vse16, replayStores]
    | succ vl =>
      have := ih (m.write base x) (base + 1) vl
      simp only [storesOf, replayStores] at this
      simp [vse16_log, storesOf, vse16, replayStores, this]

/-- A store of `vl` lanes from a register of `vl` lanes writes the cells
`base, base + 1, ..., base + vl - 1`, in this order. -/
theorem storeAddrs_vse16_log :
    ∀ (v : List Int) (base vl : Nat), v.length = vl →
      (storesOf (vse16_log base v vl)).map Prod.fst
        = (List.range vl).map (fun j => base + j) := by
  intro v
  induction v with
  | nil =>
    intro base vl h
    subst h
    simp [vse16_log, storesOf]
  | cons x xs ih =>
    intro base vl h
    cases vl with
    | zero => simp at h
    | succ vl =>
      have h1 : xs.length = vl := by simpa using h
      have := ih (base + 1) vl h1
      simp only [storesOf] at this
      have e : (List.range (vl + 1)).map (fun j => base + j)
          = base :: (List.range vl).map (fun j => base + 1 + j) := by
        rw [Nat.add_comm vl 1, List.range_add]
        simp [List.range_succ, Nat.add_assoc]
      simp [vse16_log, storesOf, this, e]

theorem rvv_result_length (vxrm : Vxrm) (vl : Nat) (alpha : Int) (a b : Nat) (m : Mem) :
    (vnclip_wx vxrm (vwadd_wv (vwmul_vx (vle16 m b vl) alpha vl) (vle16 m a vl) vl) 0 vl).length
      = vl := by
  rw [rvv_result_eq]
  simp

theorem body_log_loadsA (vxrm : Vxrm) (vl : Nat) (alpha : Int) (a b y : Nat) (m : Mem) :
    loadsOf Operand.A (q15_axpy_rvv_body_log vxrm vl alpha a b y m)
      = (List.range vl).map (fun j => a + j) := by
  simp only [q15_axpy_rvv_body_log, loadsOf_append, loadsOf_vle16_log_same, loadsOf_vse16_log,
    loadsOf_vle16_log_other (show Operand.B ≠ Operand.A by decide), List.append_nil]

theorem body_log_loadsB (vxrm : Vxrm) (vl : Nat) (alpha : Int) (a b y : Nat) (m : Mem) :
    loadsOf Operand.B (q15_axpy_rvv_body_log vxrm vl alpha a b y m)
      = (List.range vl).map (fun j => b + j) := by
  simp only [q15_axpy_rvv_body_log, loadsOf_append, loadsOf_vle16_log_same, loadsOf_vse16_log,
    loadsOf_vle16_log_other (show Operand.A ≠ Operand.B by decide), List.append_nil,
    List.nil_append]

theorem body_log_storeAddrs (vxrm : Vxrm) (vl : Nat) (alpha : Int) (a b y : Nat) (m : Mem) :
    (storesOf (q15_axpy_rvv_body_log vxrm vl alpha a b y m)).map Prod.fst
      = (List.range vl).map (fun j => y + j) := by
  simp only [q15_axpy_rvv_body_log, storesOf_append, storesOf_vle16_log, List.nil_append]
  exact storeAddrs_vse16_log _ y vl (rvv_result_length vxrm vl alpha a b m)

/-- Performing the logged stores of one pass gives the memory the pass leaves. -/
theorem body_log_replay (vxrm : Vxrm) (vl : Nat) (alpha : Int) (a b y : Nat) (m : Mem) :
    replayStores (storesOf (q15_axpy_rvv_body_log vxrm vl alpha a b y m)) m
      = q15_axpy_rvv_body vxrm vl alpha a b y m := by
  simp only [q15_axpy_rvv_body_log, storesOf_append, storesOf_vle16_log, List.nil_append,
    replay_vse16_log, q15_axpy_rvv_body]

theorem range_map_split (base : Nat) {k n : Nat} (h : k ≤ n) :
    (List.range k).map (fun j => base + j) ++ (List.range (n - k)).map (fun j => base + k + j)
      = (List.range n).map (fun j => base + j) := by
  have e : n = k + (n - k) := by omega
  conv_rhs => rw [e, List.range_add]
  simp [List.map_append, List.map_map, Function.comp_def, Nat.add_assoc]

/-- Under a valid lane-count answer the access log exists, the loads of each operand and
the stores run through the indices `0, 1, ..., n - 1` in order, and performing the logged
stores gives the memory the loop returns. -/
theorem rvv_log_spec (vsetvl : Nat → Nat) (vxrm : Vxrm) (alpha : Int) :
    ∀ (fuel n a b y : Nat) (m : Mem), n ≤ fuel → n < SIZE_MOD → validVsetvl vsetvl n →
      ∃ tr, q15_axpy_rvv_log vsetvl vxrm alpha fuel n a b y m = some tr ∧
        loadsOf Operand.A tr = (List.range n).map (fun i => a + i) ∧
        loadsOf Operand.B tr = (List.range n).map (fun i => b + i) ∧
        (storesOf tr).map Prod.fst = (List.range n).map (fun i => y + i) ∧
        q15_axpy_rvv_loop vsetvl vxrm alpha fuel n a b y m
          = some (replayStores (storesOf tr) m) := by
  intro fuel
  induction fuel with
  | zero =>
    intro n a b y m hf _ _
    have : n = 0 := by omega
    subst this
    exact ⟨[], by simp [q15_axpy_rvv_log], rfl, rfl, rfl, by simp [q15_axpy_rvv_loop, storesOf, replayStores]⟩
  | succ fuel ih =>
    intro n a b y m hf hn hv
    by_cases h0 : n > 0
    · obtain ⟨hv1, hv2⟩ := hv n h0 (Nat.le_refl n)
      have hv3 : validVsetvl vsetvl (n - vsetvl n) := fun r hr hr2 => hv r hr (by omega)
      obtain ⟨rest, hlog, hA, hB, hS, hmem⟩ :=
        ih (n - vsetvl n) (a + vsetvl n) (b + vsetvl n) (y + vsetvl n)
          (q15_axpy_rvv_body vxrm (vsetvl n) alpha a b y m) (by omega) (by omega) hv3
      refine ⟨q15_axpy_rvv_body_log vxrm (vsetvl n) alpha a b y m ++ rest, ?_, ?_, ?_, ?_, ?_⟩
      · simp only [q15_axpy_rvv_log, h0, if_true, size_sub_eq hn hv2, hlog, Option.map_some']
      · rw [loadsOf_append, body_log_loadsA, hA, range_map_split a hv2]
      · rw [loadsOf_append, body_log_loadsB, hB, range_map_split b hv2]
      · rw [storesOf_append, List.map_append, body_log_storeAddrs, hS, range_map_split y hv2]
      · simp only [q15_axpy_rvv_loop, h0, if_true, size_sub_eq hn hv2, hmem]
        rw [storesOf_append, replayStores_append, body_log_replay]
    · have : n = 0 := by omega
      subst this
      exact ⟨[], by simp [q15_axpy_rvv_log], rfl, rfl, rfl, by simp [q15_axpy_rvv_loop, storesOf, replayStores]⟩

theorem replayStores_not_mem :
    ∀ (ss : List (Nat × Int)) (m : Mem) (p : Nat), p ∉ ss.map Prod.fst →
      replayStores ss m p = m p := by
  intro ss
  induction ss with
  | nil => intro m p _; rfl
  | cons s ss ih =>
    intro m p hp
    simp only [List.map_cons, List.mem_cons, not_or] at hp
    have := ih (m.write s.1 s.2) p hp.2
    simp only [replayStores, List.foldl_cons] at this ⊢
    rw [this]
    simp [Mem.write, hp.1]

/-- When no address is stored twice, each stored value is the one found in memory after
all the stores. -/
theorem replayStores_of_mem :
    ∀ (ss : List (Nat × Int)) (m : Mem) (p : Nat) (v : Int), (ss.map Prod.fst).Nodup →
      (p, v) ∈ ss → replayStores ss m p = v := by
  intro ss
  induction ss with
  | nil => intro m p v _ h; simp at h
  | cons s ss ih =>
    intro m p v hnd h
    simp only [List.map_cons, List.nodup_cons] at hnd
    rcases List.mem_cons.1 h with rfl | h
    · have := replayStores_not_mem ss (m.write p v) p hnd.1
      simp only [replayStores, List.foldl_cons] at this ⊢
      rw [this]
      simp [Mem.write]
    · have := ih (m.write s.1 s.2) p v hnd.2 h
      simpa only [replayStores, List.foldl_cons] using this

theorem nodup_range_map_add (base n : Nat) :
    ((List.range n).map (fun i => base + i)).Nodup :=
  (List.nodup_range n).map (fun x y h => by simpa using h)

theorem mem_range_map_add (base : Nat) {n i : Nat} (hi : i < n) :
    base + i ∈ (List.range n).map (fun i => base + i) :=
  List.mem_map.2 ⟨i, List.mem_range.2 hi, rfl⟩

/-- C12 (vector-length-agnostic loop): for every `n` (a `size_t`) and every lane-count
answer with `1 ≤ vl ≤ remaining`, the loop of `q15_axpy_rvv` returns; on each pass the
remaining count is `n` minus the distance advanced and `n -= vl` does not wrap; the lane
counts add up to `n`, so the count reaches exactly 0; the passes partition `[0, n)`; and
the element accesses of the loop are exactly one load of `a + i`, one load of `b + i` and
one store to `y + i` for every `i < n`, in index order, the stored value being the one
found in `Y[i]` on return, and performing the logged stores gives the returned memory. -/
theorem rvv_loop_vla (vsetvl : Nat → Nat) (vxrm : Vxrm) (fuel n : Nat) (alpha : Int)
    (a b y : Nat) (m : Mem) (hf : n ≤ fuel) (hn : n < SIZE_MOD)
    (hv : validVsetvl vsetvl n) :
    ∃ (gs : List LaneGroup) (tr : List Access) (m' : Mem),
      q15_axpy_rvv vsetvl vxrm fuel n alpha a b y m = some m' ∧
      q15_axpy_rvv_groups vsetvl fuel n 0 = some gs ∧
      q15_axpy_rvv_log vsetvl vxrm alpha fuel n a b y m = some tr ∧
      (∀ g ∈ gs, 1 ≤ g.vl ∧ g.vl ≤ g.rem ∧ g.off + g.rem = n ∧
        size_sub g.rem g.vl = g.rem - g.vl) ∧
      (gs.map LaneGroup.vl).sum = n ∧
      (∀ i, i < n → gs.countP (fun g => g.covers i) = 1) ∧
      m' = runGroups vxrm alpha a b y gs m ∧
      loadsOf Operand.A tr = (List.range n).map (fun i => a + i) ∧
      loadsOf Operand.B tr = (List.range n).map (fun i => b + i) ∧
      (storesOf tr).map Prod.fst = (List.range n).map (fun i => y + i) ∧
      m' = replayStores (storesOf tr) m ∧
      (∀ i, i < n →
        (loadsOf Operand.A tr).count (a + i) = 1 ∧
        (loadsOf Operand.B tr).count (b + i) = 1 ∧
        ((storesOf tr).map Prod.fst).count (y + i) = 1 ∧
        ∃ v, (y + i, v) ∈ storesOf tr ∧ m' (y + i) = v) ∧
      (noClobber n a b y →
        ∀ i, i < n → (y + i, axpy_elem alpha (m (a + i)) (m (b + i))) ∈ storesOf tr) := by
  obtain ⟨gs, hgs, hall, hsum, hcnt⟩ := rvv_groups_spec vsetvl fuel n 0 hf hn hv
  obtain ⟨tr, htr, hA, hB, hS, hmem⟩ := rvv_log_spec vsetvl vxrm alpha fuel n a b y m hf hn hv
  have hrun : q15_axpy_rvv vsetvl vxrm fuel n alpha a b y m
      = some (runGroups vxrm alpha a b y gs m) := by
    have := rvv_loop_eq_runGroups vsetvl vxrm alpha a b y fuel n 0 m
    simp only [Nat.add_zero] at this
    rw [q15_axpy_rvv, this, hgs]
    rfl
  have hrep : runGroups vxrm alpha a b y gs m = replayStores (storesOf tr) m := by
    have h1 : q15_axpy_rvv vsetvl vxrm fuel n alpha a b y m
        = some (replayStores (storesOf tr) m) := hmem
    rw [hrun] at h1
    exact Option.some.inj h1
  have hval : ∀ i, i < n →
      ∃ v, (y + i, v) ∈ storesOf tr ∧ replayStores (storesOf tr) m (y + i) = v := by
    intro i hi
    have hin : y + i ∈ (storesOf tr).map Prod.fst := by
      rw [hS]
      exact mem_range_map_add y hi
    obtain ⟨s, hs, hs1⟩ := List.mem_map.1 hin
    have hs' : (y + i, s.2) ∈ storesOf tr := by
      rw [← hs1]
      exact hs
    refine ⟨s.2, hs', ?_⟩
    exact replayStores_of_mem (storesOf tr) m (y + i) s.2
      (by rw [hS]; exact nodup_range_map_add y n) hs'
  refine ⟨gs, tr, replayStores (storesOf tr) m, hmem, hgs, htr, ?_, hsum, ?_, hrep.symm,
    hA, hB, hS, rfl, ?_, ?_⟩
  · intro g hg
    have h := hall g hg
    refine ⟨h.2.1, h.2.2.1, by omega, size_sub_eq (by omega) h.2.2.1⟩
  · intro i hi
    exact hcnt i (Nat.zero_le i) (by omega)
  · intro i hi
    refine ⟨?_, ?_, ?_, hval i hi⟩
    · rw [hA]
      exact List.count_eq_one_of_mem (nodup_range_map_add a n) (mem_range_map_add a hi)
    · rw [hB]
      exact List.count_eq_one_of_mem (nodup_range_map_add b n) (mem_range_map_add b hi)
    · rw [hS]
      exact List.count_eq_one_of_mem (nodup_range_map_add y n) (mem_range_map_add y hi)
  · intro hc i hi
    obtain ⟨v, hv1, hv2⟩ := hval i hi
    have h2 : replayStores (storesOf tr) m = axpyMem n alpha a b y m := by
      have h3 := rvv_eq_axpyMem vxrm alpha m hf hn hv hc
      rw [show q15_axpy_rvv vsetvl vxrm fuel n alpha a b y m
        = some (replayStores (storesOf tr) m) from hmem] at h3
      exact Option.some.inj h3
    rw [h2, axpyMem_at alpha a b y m hi] at hv2
    rw [hv2]
    exact hv1

/-- Instance of C12 with the degenerate answer `vl = 1` and `n = 127`, with `A` at cells
0..126, `B` at cells 127..253 and `Y` at cells 254..380. -/
theorem rvv_loop_vla_witness :
    ∃ (gs : List LaneGroup) (tr : List Access) (m' : Mem),
      q15_axpy_rvv (fun _ => 1) Vxrm.rnu 127 127 1000 0 127 254 rampMem
        = some m' ∧
      q15_axpy_rvv_groups (fun _ => 1) 127 127 0 = some gs ∧
      q15_axpy_rvv_log (fun _ => 1) Vxrm.rnu 1000 127 127 0 127 254 rampMem
        = some tr ∧
      (∀ g ∈ gs, 1 ≤ g.vl ∧ g.vl ≤ g.rem ∧ g.off + g.rem = 127 ∧
        size_sub g.rem g.vl = g.rem - g.vl) ∧
      (gs.map LaneGroup.vl).sum = 127 ∧
      (∀ i, i < 127 → gs.countP (fun g => g.covers i) = 1) ∧
      m' = runGroups Vxrm.rnu 1000 0 127 254 gs rampMem ∧
      loadsOf Operand.A tr = (List.range 127).map (fun i => 0 + i) ∧
      loadsOf Operand.B tr = (List.range 127).map (fun i => 127 + i) ∧
      (storesOf tr).map Prod.fst = (List.range 127).map (fun i => 254 + i) ∧
      m' = replayStores (storesOf tr) rampMem ∧
      (∀ i, i < 127 →
        (loadsOf Operand.A tr).count (0 + i) = 1 ∧
        (loadsOf Operand.B tr).count (127 + i) = 1 ∧
        ((storesOf tr).map Prod.fst).count (254 + i) = 1 ∧
        ∃ v, (254 + i, v) ∈ storesOf tr ∧ m' (254 + i) = v) ∧
      (noClobber 127 0 127 254 →
        ∀ i, i < 127 →
          (254 + i, axpy_elem 1000 (rampMem (0 + i)) (rampMem (127 + i))) ∈ storesOf tr) :=
  rvv_loop_vla (fun _ => 1) Vxrm.rnu 127 127 1000 0 127 254 rampMem
    (by decide) (by decide) (by intro r h1 h2; simp only []; omega)

/-- The access log of the loop evaluated on `n = 3` with at most two lanes per pass,
`alpha = 2`, `A = [10, 20, 30]` at cells 0..2, `B = [1, 2, 3]` at cells 3..5 and `Y` at
cells 6..8: two passes, each loading its lanes of `A`, then of `B`, then storing. -/
theorem rvv_log_example :
    q15_axpy_rvv_log (fun r => min r 2) Vxrm.rnu 2 3 3 0 3 6 (memOfList [10, 20, 30, 1, 2, 3])
      = some [Access.load Operand.A 0, Access.load Operand.A 1,
          Access.load Operand.B 3, Access.load Operand.B 4,
          Access.store 6 12, Access.store 7 24,
          Access.load Operand.A 2, Access.load Operand.B 5, Access.store 8 36] := by
  decide

/-- C13 (narrowing with shift 0 is exact): for every lane value `s` and every rounding
mode, the saturating narrow with shift amount 0 adds no rounding increment and returns
`clamp(s, -32768, 32767)`, which is `saturate_q15(s)`; a value in the int16 range passes
through unchanged. -/
theorem vnclip_shift_zero_exact (vxrm : Vxrm) (s : Int) :
    roundIncrement vxrm s 0 = 0 ∧
    roundoff_signed vxrm s (0 % 32) = s ∧
    vnclip_wx vxrm [s] 0 1 = [clampQ15 s] ∧
    vnclip_wx vxrm [s] 0 1 = [saturate_q15 s] ∧
    (isInt16 s → vnclip_wx vxrm [s] 0 1 = [s]) ∧
    (∀ (vs2 : List Int) (vl : Nat),
      vnclip_wx vxrm vs2 0 vl = (vs2.take vl).map saturate_q15) := by
  have h0 : roundoff_signed vxrm s (0 % 32) = s := roundoff_signed_zero vxrm s
  have hall : ∀ (vs2 : List Int) (vl : Nat),
      vnclip_wx vxrm vs2 0 vl = (vs2.take vl).map saturate_q15 := by
    intro vs2 vl
    unfold vnclip_wx
    apply List.map_congr_left
    intro x _
    have : roundoff_signed vxrm x (0 % 32) = x := roundoff_signed_zero vxrm x
    rw [this, clip16_eq_saturate]
  have h1 : vnclip_wx vxrm [s] 0 1 = [saturate_q15 s] := by
    rw [hall]
    rfl
  refine ⟨?_, h0, ?_, h1, ?_, hall⟩
  · cases vxrm <;> simp [roundIncrement]
  · rw [h1, saturate_q15_eq_clamp]
  · intro hs
    rw [h1, saturate_q15_eq_clamp, clampQ15_of_isInt16 hs]

/-- Instance of C13: under round-to-nearest-up an odd in-range value, a value above the
range and a value below the range narrow to 12345, 32767 and -32768. -/
theorem vnclip_shift_zero_exact_witness :
    vnclip_wx Vxrm.rnu [12345, 40001, -2147483648] 0 3 = [12345, 32767, -32768] :=
  ((vnclip_shift_zero_exact Vxrm.rnu 0).2.2.2.2.2 [12345, 40001, -2147483648] 3).trans
    (by decide)

/-- C14 (in-place safety): when `A` and `B` are the same buffer or disjoint, a call
with `Y` exactly `A`, or with `Y` exactly `B`, leaves in `Y[0..n)` the values that a call
with a separate output buffer `y` produces from the original contents of `A` and `B`;
this holds for the scalar loop and for the vector loop under every lane-count answer with
`1 ≤ vl ≤ remaining`. -/
theorem in_place_safe (n : Nat) (alpha : Int) (a b y : Nat) (m : Mem)
    (hy : ∀ i j, i < n → j < n → y + j ≠ a + i ∧ y + j ≠ b + i)
    (hab : a = b ∨ ∀ i j, i < n → j < n → a + j ≠ b + i) :
    (∀ i, i < n →
      q15_axpy_scalar n alpha a b a m (a + i) = q15_axpy_scalar n alpha a b y m (y + i)) ∧
    (∀ i, i < n →
      q15_axpy_scalar n alpha a b b m (b + i) = q15_axpy_scalar n alpha a b y m (y + i)) ∧
    (∀ (vsetvl : Nat → Nat) (vxrm : Vxrm) (fuel : Nat), n ≤ fuel → n < SIZE_MOD →
      validVsetvl vsetvl n →
      (∃ m', q15_axpy_rvv vsetvl vxrm fuel n alpha a b a m = some m' ∧
        ∀ i, i < n → m' (a + i) = q15_axpy_scalar n alpha a b y m (y + i)) ∧
      (∃ m', q15_axpy_rvv vsetvl vxrm fuel n alpha a b b m = some m' ∧
        ∀ i, i < n → m' (b + i) = q15_axpy_scalar n alpha a b y m (y + i))) := by
  have hcy : noClobber n a b y := fun i j hji hin => hy i j hin (by omega)
  have hca : noClobber n a b a := by
    intro i j hji hin
    refine ⟨by omega, ?_⟩
    rcases hab with rfl | hd
    · omega
    · exact hd i j hin (by omega)
  have hcb : noClobber n a b b := by
    intro i j hji hin
    refine ⟨?_, by omega⟩
    rcases hab with rfl | hd
    · omega
    · have := hd j i (by omega) hin
      omega
  have hout : ∀ i, i < n → q15_axpy_scalar n alpha a b y m (y + i)
      = axpy_elem alpha (m (a + i)) (m (b + i)) := fun i hi => by
    rw [scalar_eq_axpyMem alpha m hcy, axpyMem_at alpha a b y m hi]
  refine ⟨?_, ?_, ?_⟩
  · intro i hi
    rw [hout i hi, scalar_eq_axpyMem alpha m hca, axpyMem_at alpha a b a m hi]
  · intro i hi
    rw [hout i hi, scalar_eq_axpyMem alpha m hcb, axpyMem_at alpha a b b m hi]
  · intro vsetvl vxrm fuel hf hn hv
    constructor
    · refine ⟨_, rvv_eq_axpyMem vxrm alpha m hf hn hv hca, ?_⟩
      intro i hi
      rw [hout i hi, axpyMem_at alpha a b a m hi]
    · refine ⟨_, rvv_eq_axpyMem vxrm alpha m hf hn hv hcb, ?_⟩
      intro i hi
      rw [hout i hi, axpyMem_at alpha a b b m hi]

/-- Instance of C14 with `n = 3`, `alpha = 300`, `A = [100, -200, 32000]` at cells 0..2,
`B = [7, -9, 120]` at cells 3..5 and the separate output at cells 6..8. -/
theorem in_place_safe_witness :
    (∀ i, i < 3 →
      q15_axpy_scalar 3 300 0 3 0 (memOfList [100, -200, 32000, 7, -9, 120]) (0 + i)
        = q15_axpy_scalar 3 300 0 3 6 (memOfList [100, -200, 32000, 7, -9, 120]) (6 + i)) ∧
    (∀ i, i < 3 →
      q15_axpy_scalar 3 300 0 3 3 (memOfList [100, -200, 32000, 7, -9, 120]) (3 + i)
        = q15_axpy_scalar 3 300 0 3 6 (memOfList [100, -200, 32000, 7, -9, 120]) (6 + i)) ∧
    (∀ (vsetvl : Nat → Nat) (vxrm : Vxrm) (fuel : Nat), 3 ≤ fuel → 3 < SIZE_MOD →
      validVsetvl vsetvl 3 →
      (∃ m', q15_axpy_rvv vsetvl vxrm fuel 3 300 0 3 0
          (memOfList [100, -200, 32000, 7, -9, 120]) = some m' ∧
        ∀ i, i < 3 → m' (0 + i)
          = q15_axpy_scalar 3 300 0 3 6 (memOfList [100, -200, 32000, 7, -9, 120]) (6 + i)) ∧
      (∃ m', q15_axpy_rvv vsetvl vxrm fuel 3 300 0 3 3
          (memOfList [100, -200, 32000, 7, -9, 120]) = some m' ∧
        ∀ i, i < 3 → m' (3 + i)
          = q15_axpy_scalar 3 300 0 3 6
              (memOfList [100, -200, 32000, 7, -9, 120]) (6 + i))) :=
  in_place_safe 3 300 0 3 6 (memOfList [100, -200, 32000, 7, -9, 120])
    (by intro i j h1 h2; omega) (Or.inr (by intro i j h1 h2; omega))

/-- Shifting the three pointers by `c` is the same as shifting the start index by `c`. -/
theorem scalar_loop_shift (alpha : Int) (a b y c : Nat) :
    ∀ (k i : Nat) (m : Mem),
      q15_axpy_scalar_loop alpha (a + c) (b + c) (y + c) k i m
        = q15_axpy_scalar_loop alpha a b y k (i + c) m := by
  intro k
  induction k with
  | zero => intro i m; rfl
  | succ k ih =>
    intro i m
    have ea : a + c + i = a + (i + c) := by omega
    have eb : b + c + i = b + (i + c) := by omega
    have ey : y + c + i = y + (i + c) := by omega
    have hb : q15_axpy_scalar_body alpha (a + c) (b + c) (y + c) i m
        = q15_axpy_scalar_body alpha a b y (i + c) m := by
      simp only [q15_axpy_scalar_body, ea, eb, ey]
    have ei : i + 1 + c = i + c + 1 := by omega
    rw [q15_axpy_scalar_loop, q15_axpy_scalar_loop, ih, hb, ei]

/-- Running `k1 + k2` iterations is running `k1` and then `k2` more. -/
theorem scalar_loop_append (alpha : Int) (a b y : Nat) :
    ∀ (k1 k2 i : Nat) (m : Mem),
      q15_axpy_scalar_loop alpha a b y (k1 + k2) i m
        = q15_axpy_scalar_loop alpha a b y k2 (i + k1)
            (q15_axpy_scalar_loop alpha a b y k1 i m) := by
  intro k1
  induction k1 with
  | zero => intro k2 i m; simp [q15_axpy_scalar_loop]
  | succ k1 ih =>
    intro k2 i m
    have e1 : k1 + 1 + k2 = (k1 + k2) + 1 := by omega
    have e2 : i + (k1 + 1) = i + 1 + k1 := by omega
    rw [e1, q15_axpy_scalar_loop, ih, e2, q15_axpy_scalar_loop]

/-- C15 (chunk composition): for every `n`, every `k ≤ n`, every `alpha` and every
memory, whatever the aliasing, running `q15_axpy_scalar` on the first `k` elements and
then on the remaining `n - k` elements at `a + k`, `b + k`, `y + k` leaves the same
memory as a single call on all `n` elements. -/
theorem scalar_chunk_composition (n k : Nat) (alpha : Int) (a b y : Nat) (m : Mem)
    (hk : k ≤ n) :
    q15_axpy_scalar (n - k) alpha (a + k) (b + k) (y + k) (q15_axpy_scalar k alpha a b y m)
      = q15_axpy_scalar n alpha a b y m := by
  have e : n = k + (n - k) := by omega
  unfold q15_axpy_scalar
  rw [scalar_loop_shift]
  conv_rhs => rw [e, scalar_loop_append]

/-- Instance of C15 with `n = 5`, `k = 2` on `A = [0, 100, .., 400]`, `B = [0, 50, .., 200]`. -/
theorem scalar_chunk_composition_witness :
    q15_axpy_scalar (5 - 2) 1000 (0 + 2) (5 + 2) (10 + 2)
        (q15_axpy_scalar 2 1000 0 5 10 (memOfList [0, 100, 200, 300, 400, 0, 50, 100, 150, 200]))
      = q15_axpy_scalar 5 1000 0 5 10 (memOfList [0, 100, 200, 300, 400, 0, 50, 100, 150, 200]) :=
  scalar_chunk_composition 5 2 1000 0 5 10
    (memOfList [0, 100, 200, 300, 400, 0, 50, 100, 150, 200]) (by decide)

/-- C16 (single saturation point): the kernels saturate the final sum only.  At
`alpha = 200`, `B[0] = 200`, `A[0] = -32768` the product 40000 is kept unsaturated, the
true sum is 7232 and both the scalar kernel and the vector kernel store 7232, while the
two-step computation `saturate(A[0] + saturate(alpha*B[0]))` gives -1. -/
theorem single_saturation_point :
    q15_axpy_scalar 1 200 0 1 2 (memOfList [-32768, 200]) (2 + 0) = 7232 ∧
    (q15_axpy_rvv (fun r => min r 8) Vxrm.rnu 1 1 200 0 1 2 (memOfList [-32768, 200])).map
      (fun m' => m' (2 + 0)) = some 7232 ∧
    memOfList [-32768, 200] (0 + 0) + 200 * memOfList [-32768, 200] (1 + 0) = 7232 ∧
    wrap32 (200 * memOfList [-32768, 200] (1 + 0)) = 40000 ∧
    two_step_elem 200 (memOfList [-32768, 200] (0 + 0)) (memOfList [-32768, 200] (1 + 0)) = -1 ∧
    q15_axpy_scalar 1 200 0 1 2 (memOfList [-32768, 200]) (2 + 0)
      ≠ two_step_elem 200 (memOfList [-32768, 200] (0 + 0))
          (memOfList [-32768, 200] (1 + 0)) := by
  decide

theorem clampQ15_mono {x y : Int} (h : x ≤ y) : clampQ15 x ≤ clampQ15 y := by
  unfold clampQ15
  omega

/-- C17 (monotonicity): `saturate_q15` is monotone non-decreasing; hence, for int16
data and fixed `alpha` and `B[i]`, `A[i] ≤ A'[i]` gives an output element computed from
`A[i]` that is at most the one computed from `A'[i]`, and for fixed `A[i]` and
`alpha ≥ 0` the output element is monotone non-decreasing in `B[i]`. -/
theorem output_monotone (n : Nat) (alpha : Int) (a b y : Nat) (m m' : Mem)
    (hα : isInt16 alpha)
    (hA : ∀ i, i < n → isInt16 (m (a + i))) (hB : ∀ i, i < n → isInt16 (m (b + i)))
    (hA' : ∀ i, i < n → isInt16 (m' (a + i))) (hB' : ∀ i, i < n → isInt16 (m' (b + i)))
    (hc : noClobber n a b y) (i : Nat) (hi : i < n) :
    (∀ u v : Int, u ≤ v → saturate_q15 u ≤ saturate_q15 v) ∧
    (m (b + i) = m' (b + i) → m (a + i) ≤ m' (a + i) →
      q15_axpy_scalar n alpha a b y m (y + i) ≤ q15_axpy_scalar n alpha a b y m' (y + i)) ∧
    (m (a + i) = m' (a + i) → 0 ≤ alpha → m (b + i) ≤ m' (b + i) →
      q15_axpy_scalar n alpha a b y m (y + i) ≤ q15_axpy_scalar n alpha a b y m' (y + i)) := by
  have e : ∀ (mm : Mem), isInt16 (mm (a + i)) → isInt16 (mm (b + i)) →
      q15_axpy_scalar n alpha a b y mm (y + i)
        = clampQ15 (mm (a + i) + alpha * mm (b + i)) := fun mm h1 h2 => by
    rw [scalar_eq_axpyMem alpha mm hc, axpyMem_at alpha a b y mm hi,
      axpy_elem_eq_clamp hα h1 h2]
  rw [e m (hA i hi) (hB i hi), e m' (hA' i hi) (hB' i hi)]
  refine ⟨?_, ?_, ?_⟩
  · intro u v huv
    rw [saturate_q15_eq_clamp, saturate_q15_eq_clamp]
    exact clampQ15_mono huv
  · intro hb ha
    apply clampQ15_mono
    rw [hb]
    omega
  · intro ha h0 hb
    apply clampQ15_mono
    have := mul_le_mul_of_nonneg_left hb h0
    rw [ha]
    omega

/-- Instance of C17 at index 0 with `alpha = 3`: memories `[10, 5]` and `[20, 5]` differ
in `A[0]` only, memories `[10, 5]` and `[10, 9]` in `B[0]` only. -/
theorem output_monotone_witness :
    (q15_axpy_scalar 1 3 0 1 2 (memOfList [10, 5]) (2 + 0)
      ≤ q15_axpy_scalar 1 3 0 1 2 (memOfList [20, 5]) (2 + 0)) ∧
    (q15_axpy_scalar 1 3 0 1 2 (memOfList [10, 5]) (2 + 0)
      ≤ q15_axpy_scalar 1 3 0 1 2 (memOfList [10, 9]) (2 + 0)) :=
  ⟨(output_monotone 1 3 0 1 2 (memOfList [10, 5]) (memOfList [20, 5]) (by decide) (by decide)
      (by decide) (by decide) (by decide) (by intro i j h1 h2; omega) 0 (by decide)).2.1
      (by decide) (by decide),
   (output_monotone 1 3 0 1 2 (memOfList [10, 5]) (memOfList [10, 9]) (by decide) (by decide)
      (by decide) (by decide) (by decide) (by intro i j h1 h2; omega) 0 (by decide)).2.2
      (by decide) (by decide) (by decide)⟩

end Q15Axpy
